import Mathlib

/-!
Verification development for the js-serialization library
(src/es/index.js): an extended-JSON encoder/decoder that smuggles
absent values, non-finite numbers, big integers and timestamps through
ordinary JSON strings shaped like data URLs.

Modelling conventions:
* JS strings are lists of Unicode scalar values (`List Char`); for the
  BMP text the library manipulates, a scalar is exactly one UTF-16 code
  unit, so `charCodeAt` is `Char.toNat`.
* JS numbers are modelled by `JNum`: NaN, the two infinities, and
  finite numbers restricted to integer-valued doubles (the only finite
  numbers any claim exercises); `String(n)` on such a number is plain
  decimal notation, which is exact in JS for |n| < 10^21.
* BigInt values are `Int`; Date values carry their `getTime()` result.
* Fallible operations return `Except JSError` / `Option`; a JS `throw`
  is an `Except.error`, and a JS function returning `undefined` where a
  string is expected is `Option.none`.
-/

abbrev JStr := List Char

def lbrace : Char := Char.ofNat 123
def rbrace : Char := Char.ofNat 125

/-- The character class of `rx_escapable` (source line 2), stated by
code point: backslash, double quote, C0 controls, DEL plus the C1
controls, soft hyphen, and the further fixed Unicode ranges of the
regex. -/
def isEscapable (c : Char) : Bool :=
  let n := c.toNat
  n = 92 || n = 34 || n ≤ 31 || (127 ≤ n && n ≤ 159) || n = 173 ||
  (1536 ≤ n && n ≤ 1540) || n = 1807 || n = 6068 || n = 6069 ||
  (8204 ≤ n && n ≤ 8207) || (8232 ≤ n && n ≤ 8239) ||
  (8288 ≤ n && n ≤ 8303) || n = 65279 || (65520 ≤ n && n ≤ 65535)

/-- The `meta` substitution table (source lines 3-12): the seven
characters with two-character escapes. -/
def meta (c : Char) : Option JStr :=
  if c.toNat = 8 then some ['\\', 'b']
  else if c.toNat = 9 then some ['\\', 't']
  else if c.toNat = 10 then some ['\\', 'n']
  else if c.toNat = 12 then some ['\\', 'f']
  else if c.toNat = 13 then some ['\\', 'r']
  else if c = '"' then some ['\\', '"']
  else if c = '\\' then some ['\\', '\\']
  else none

/-- Lowercase hexadecimal digits of `n` (JS `Number.prototype.toString(16)`). -/
def natToHex (n : Nat) : JStr :=
  if _ : n < 16 then [Nat.digitChar n]
  else natToHex (n / 16) ++ [Nat.digitChar (n % 16)]
  termination_by n
  decreasing_by exact Nat.div_lt_self (by omega) (by omega)

/-- Last `k` characters of a string (JS `slice(-k)` for nonempty result). -/
def lastN (k : Nat) (l : JStr) : JStr := l.drop (l.length - k)

/-- `('0000' + h).slice(-4)` padding of a hex rendering (source line 31). -/
def hex4 (n : Nat) : JStr := lastN 4 (['0', '0', '0', '0'] ++ natToHex n)

/-- The replacement the `quote` callback performs on one escapable
character (source lines 27-31): the `meta` table entry if present,
otherwise the `\uXXXX` form of its code unit. -/
def escapeChar (c : Char) : JStr :=
  match meta c with
  | some m => m
  | none => '\\' :: 'u' :: hex4 c.toNat

/-- `quote` (source lines 19-35): fast path when no character needs
escaping, otherwise a regex-replace of every escapable character. -/
def quote (s : JStr) : JStr :=
  if s.any isEscapable then
    '"' :: (s.flatMap fun a => if isEscapable a then escapeChar a else [a]) ++ ['"']
  else '"' :: (s ++ ['"'])

/-- `toDataURL` (source lines 36-38). -/
def toDataURL (type value : JStr) : JStr :=
  "data:".toList ++ type ++ [','] ++ value

/-- JS `String.prototype.split` with a single-character separator:
`"a,b,"` splits to `["a", "b", ""]`, `""` splits to `[""]`. -/
def splitOn (sep : Char) : JStr → List JStr
  | [] => [[]]
  | c :: r =>
    if c = sep then [] :: splitOn sep r
    else
      match splitOn sep r with
      | s :: ss => (c :: s) :: ss
      | [] => [[c]]

/-- Result record of `parseDataURL`; a missing component (JS
`undefined` from out-of-range destructuring/indexing) is `none`. -/
structure DataURL where
  type : Option JStr
  value : Option JStr
deriving DecidableEq

/-- `parseDataURL` (source lines 39-45): split the whole text on `,`,
take the first two segments as `[type, value]`, then report the piece
of the first segment after its first `:` as the type. -/
def parseDataURL (text : JStr) : DataURL :=
  let parts := splitOn ',' text
  { type := (splitOn ':' (parts.headD []))[1]?
    value := parts[1]? }

/-- The token-detection regex `/^data:[^,]+,[^,]*$/` (source line 193):
exactly one comma, a `data:` prefix, and a nonempty type segment. -/
def isToken (s : JStr) : Bool :=
  match splitOn ',' s with
  | [seg0, _] => "data:".toList.isPrefixOf seg0 && 5 < seg0.length
  | _ => false

/-- JS decimal digits of a natural number (`String(n)` for `n : Nat`). -/
def natToDigits (n : Nat) : JStr :=
  if _ : n < 10 then [Nat.digitChar n]
  else natToDigits (n / 10) ++ [Nat.digitChar (n % 10)]
  termination_by n
  decreasing_by exact Nat.div_lt_self (by omega) (by omega)

/-- JS `String(i)` for an integer-valued number or a BigInt: decimal
digits with a leading minus sign when negative. -/
def jsIntToString (i : Int) : JStr :=
  if i < 0 then '-' :: natToDigits i.natAbs else natToDigits i.toNat

/-- A JS number: NaN, an infinity, or a finite (integer-valued) double. -/
inductive JNum where
  | nan
  | inf
  | ninf
  | finite (i : Int)
deriving DecidableEq

/-- JS `String(n)` on a number. -/
def jnumToString : JNum → JStr
  | .nan => "NaN".toList
  | .inf => "Infinity".toList
  | .ninf => "-Infinity".toList
  | .finite i => jsIntToString i

/-- The JS values the library operates on. `undef` is the absent value
`undefined`; `sentinel` is the module's `undefinedSymbol` (source line
13); `unsupported` stands for the value categories the encoder's
`switch` has no case for (functions and other symbols), which make
`str` return `undefined`. Objects are insertion-ordered field lists. -/
inductive JSV where
  | undef
  | jsNull
  | bool (b : Bool)
  | num (n : JNum)
  | str (s : JStr)
  | bigint (i : Int)
  | date (t : JNum)
  | arr (elems : List JSV)
  | obj (fields : List (JStr × JSV))
  | sentinel
  | unsupported

instance : Inhabited JSV := ⟨.undef⟩

/-- JS property read `holder[k]` on an object: the field's value, or
`undefined` when the key is missing. -/
def lookupJS (f : List (JStr × JSV)) (k : JStr) : JSV :=
  (f.lookup k).getD JSV.undef

/-- The replacer modes `str` distinguishes (source lines 74-76 and
138-150): no replacer, or an inclusion array. A function replacer
behaves like `noRep` whenever the function returns its `value`
argument unchanged; no claim exercises a value-changing function, so
that mode is represented by `noRep` via `repOf`. -/
inductive RepMode where
  | noRep
  | listRep (entries : List JSV)

/-- The `replacer` argument of `stringify` as a JS runtime category:
`undefined`, `null`, a primitive with its truthiness (numbers, strings,
booleans, symbols, bigints), a function, an array(-like) object with a
numeric `length` and its elements, or an object without a numeric
`length`. -/
inductive RepArg where
  | undef
  | jsNull
  | prim (truthy : Bool)
  | funcArg
  | arrArg (entries : List JSV)
  | plainObj

/-- The `space` argument of `stringify`: absent, an (integer-valued)
number, or a string. -/
inductive SpaceArg where
  | noSpace
  | num (n : Int)
  | strSp (s : JStr)

theorem sizeOf_lookupJS (f : List (JStr × JSV)) (k : JStr) :
    sizeOf (lookupJS f k) < 1 + sizeOf f := by
  induction f with
  | nil => simp [lookupJS, List.lookup]
  | cons hd tl ih =>
    obtain ⟨a, b⟩ := hd
    simp only [lookupJS, List.lookup] at *
    cases h : k == a <;>
      simp only [h, Option.getD_some, List.cons.sizeOf_spec, Prod.mk.sizeOf_spec] <;>
      omega

/-- `str` (source lines 46-174), specialised to the configurations the
claims exercise: no plugins, no `toJSON`-bearing values, and a replacer
that is absent or an inclusion array (a function replacer that returns
`value` unchanged coincides with `noRep`). The `path` stack is omitted:
it is observable only by hook functions. `key`/`holder` indirection is
resolved at each call site: the dispatch happens on `holder[key]`,
which for arrays is the element, for plain object traversal the field
value, and for inclusion-list lookups `lookupJS f k`. -/
def str (rp : RepMode) (indent gap : JStr) (value : JSV) : Option JStr :=
  match value with
  | .undef => some (quote (toDataURL "undefined".toList []))
  | .str s => some (quote s)
  | .num .nan => some (quote (toDataURL "number".toList "NaN".toList))
  | .num .inf => some (quote (toDataURL "number".toList "Infinity".toList))
  | .num .ninf => some (quote (toDataURL "number".toList "-Infinity".toList))
  | .num (.finite i) => some (jsIntToString i)
  | .bigint i => some (quote (toDataURL "bigint".toList (jsIntToString i)))
  | .bool b => some (if b then "true".toList else "false".toList)
  | .jsNull => some ("null".toList)
  | .date t => some (quote (toDataURL "date".toList (jnumToString t)))
  | .sentinel => none
  | .unsupported => none
  | .arr l =>
    let gap1 := gap ++ indent
    let parts := l.attach.map fun e => (str rp indent gap1 e.1).getD ("null".toList)
    some (if parts.isEmpty then "[]".toList
      else if gap1.isEmpty then '[' :: List.intercalate [','] parts ++ [']']
      else '[' :: '\n' :: gap1 ++
        List.intercalate (',' :: '\n' :: gap1) parts ++ '\n' :: gap ++ [']'])
  | .obj f =>
    let gap1 := gap ++ indent
    let colon := if gap1.isEmpty then [':'] else [':', ' ']
    let parts :=
      match rp with
      | .listRep entries =>
        entries.filterMap fun e =>
          match e with
          | .str k =>
            (str rp indent gap1 (lookupJS f k)).map fun vt => quote k ++ colon ++ vt
          | _ => none
      | .noRep =>
        f.attach.filterMap fun kv =>
          (str rp indent gap1 kv.1.2).map fun vt => quote kv.1.1 ++ colon ++ vt
    some (if parts.isEmpty then [lbrace, rbrace]
      else if gap1.isEmpty then lbrace :: List.intercalate [','] parts ++ [rbrace]
      else lbrace :: '\n' :: gap1 ++
        List.intercalate (',' :: '\n' :: gap1) parts ++ '\n' :: gap ++ [rbrace])
termination_by sizeOf value
decreasing_by
  · have h := List.sizeOf_lt_of_mem e.2
    simp only [JSV.arr.sizeOf_spec]
    omega
  · have h := sizeOf_lookupJS f k
    simp only [JSV.obj.sizeOf_spec]
    omega
  · have h := List.sizeOf_lt_of_mem kv.2
    obtain ⟨⟨k0, v0⟩, hm⟩ := kv
    simp only [JSV.obj.sizeOf_spec, Prod.mk.sizeOf_spec] at *
    omega

/-- The `indent` computed from `space` (source lines 262-276). -/
def indentOf : SpaceArg → JStr
  | .noSpace => []
  | .num n => List.replicate n.toNat ' '
  | .strSp s => s

/-- The replacer validation of `stringify` (source lines 281-285):
`replacer && typeof replacer !== 'function' && (typeof replacer !==
'object' || typeof replacer.length !== 'number')`. -/
def replacerInvalid : RepArg → Bool
  | .prim t => t
  | .plainObj => true
  | _ => false

/-- The replacer mode `str` sees for a given `replacer` argument: the
array branch for array-likes, the default traversal otherwise (for
`funcArg` see the comment on `RepMode`). -/
def repOf : RepArg → RepMode
  | .arrArg entries => .listRep entries
  | _ => .noRep

inductive JSError where
  | invalidReplacer
  | syntaxError
  | bigIntError
  | typeError
deriving DecidableEq

/-- `JSSerialization.stringify` (source lines 261-289) with no plugins
registered: compute the indent, validate the replacer (throwing
`invalidReplacer` exactly when the source throws), then stringify the
value under the fake root holder. The result is `none` when `str`
returns no text (JS `undefined`). -/
def JSSerialization.stringify (value : JSV) (replacer : RepArg)
    (space : SpaceArg) : Except JSError (Option JStr) :=
  if replacerInvalid replacer then .error .invalidReplacer
  else .ok (str (repOf replacer) (indentOf space) [] value)

/-- A host-format (JSON) document tree. Numbers are restricted to the
integer literals the encoder emits. -/
inductive Json where
  | null
  | bool (b : Bool)
  | num (i : Int)
  | str (s : JStr)
  | arr (elems : List Json)
  | obj (fields : List (JStr × Json))

instance : Inhabited Json := ⟨.null⟩

/-- Modelled from the spec: the host format's native parser is "a given
primitive consumed, not reimplemented"; this is its string lexer for
the body of a quoted literal (everything after the opening quote),
returning the decoded text and the remaining input. -/
def isHexDigitChar (c : Char) : Bool :=
  c.isDigit || (97 ≤ c.toNat && c.toNat ≤ 102) || (65 ≤ c.toNat && c.toNat ≤ 70)

def hexVal (c : Char) : Nat :=
  if c.isDigit then c.toNat - 48
  else if 97 ≤ c.toNat then c.toNat - 87
  else c.toNat - 55

def parseStringBody (s : JStr) : Option (JStr × JStr) :=
  match s with
  | [] => none
  | c :: rest =>
    if c = '"' then some ([], rest)
    else if c = '\\' then
      match rest with
      | [] => none
      | e :: rest1 =>
        if e = 'u' then
          match rest1 with
          | h1 :: h2 :: h3 :: h4 :: rest2 =>
            if isHexDigitChar h1 && isHexDigitChar h2 && isHexDigitChar h3 &&
                isHexDigitChar h4 then
              (parseStringBody rest2).map fun p =>
                (Char.ofNat (hexVal h1 * 4096 + hexVal h2 * 256 + hexVal h3 * 16 + hexVal h4)
                  :: p.1, p.2)
            else none
          | _ => none
        else
          match if e = '"' then some '"'
            else if e = '\\' then some '\\'
            else if e = '/' then some '/'
            else if e = 'b' then some (Char.ofNat 8)
            else if e = 't' then some (Char.ofNat 9)
            else if e = 'n' then some (Char.ofNat 10)
            else if e = 'f' then some (Char.ofNat 12)
            else if e = 'r' then some (Char.ofNat 13)
            else none with
          | some d => (parseStringBody rest1).map fun p => (d :: p.1, p.2)
          | none => none
    else (parseStringBody rest).map fun p => (c :: p.1, p.2)

/-- Modelled from the spec: the native parser's number lexer, for the
integer literals the encoder emits (a digit run, read in decimal). -/
def parseNatTok (s : JStr) : Option (Nat × JStr) :=
  match s.takeWhile Char.isDigit with
  | [] => none
  | ds => some (ds.foldl (fun a c => 10 * a + (c.toNat - 48)) 0, s.dropWhile Char.isDigit)

mutual

/-- Modelled from the spec: the host format's native parser (`JSON.parse`
without a reviver), as a fuelled recursive-descent reader of one value.
Whitespace handling is omitted: every claim concerns the compact texts
the encoder emits. -/
def jsonParseVal : Nat → JStr → Option (Json × JStr)
  | 0, _ => none
  | _ + 1, [] => none
  | n + 1, c :: rest =>
    if c = '"' then (parseStringBody rest).map fun p => (.str p.1, p.2)
    else if c = 't' then
      match rest with
      | 'r' :: 'u' :: 'e' :: r => some (.bool true, r)
      | _ => none
    else if c = 'f' then
      match rest with
      | 'a' :: 'l' :: 's' :: 'e' :: r => some (.bool false, r)
      | _ => none
    else if c = 'n' then
      match rest with
      | 'u' :: 'l' :: 'l' :: r => some (.null, r)
      | _ => none
    else if c = '-' then
      (parseNatTok rest).map fun p => (.num (-(p.1 : Int)), p.2)
    else if c.isDigit then
      (parseNatTok (c :: rest)).map fun p => (.num (p.1 : Int), p.2)
    else if c = '[' then
      match rest with
      | ']' :: r => some (.arr [], r)
      | _ => (jsonParseItems n rest).map fun p => (.arr p.1, p.2)
    else if c = lbrace then
      match rest with
      | r0 :: r1 => if r0 = rbrace then some (.obj [], r1)
          else (jsonParseFields n rest).map fun p => (.obj p.1, p.2)
      | [] => none
    else none

/-- Comma-separated values up to a closing bracket. -/
def jsonParseItems : Nat → JStr → Option (List Json × JStr)
  | 0, _ => none
  | n + 1, s =>
    match jsonParseVal n s with
    | some (j, r) =>
      match r with
      | ',' :: r1 => (jsonParseItems n r1).map fun p => (j :: p.1, p.2)
      | ']' :: r1 => some ([j], r1)
      | _ => none
    | none => none

/-- Comma-separated `"key":value` pairs up to a closing brace. -/
def jsonParseFields : Nat → JStr → Option (List (JStr × Json) × JStr)
  | 0, _ => none
  | n + 1, s =>
    match s with
    | '"' :: s1 =>
      match parseStringBody s1 with
      | some (k, r) =>
        match r with
        | ':' :: r1 =>
          match jsonParseVal n r1 with
          | some (j, r2) =>
            match r2 with
            | ',' :: r3 => (jsonParseFields n r3).map fun p => ((k, j) :: p.1, p.2)
            | r3h :: r3t => if r3h = rbrace then some ([(k, j)], r3t) else none
            | [] => none
          | none => none
        | _ => none
      | none => none
    | _ => none

end

/-- Modelled from the spec: `JSON.parse text` (no reviver) — read one
value and require the input to be exhausted. -/
def jsonParse (text : JStr) : Option Json :=
  match jsonParseVal (text.length + 1) text with
  | some (j, []) => some j
  | _ => none

/-- JS `BigInt(string)` on the payload strings the decoder passes it:
an empty string is `0n`, an optionally signed digit run is its value,
anything else throws (`none`). (Whitespace trimming and the `0x`/`0o`/
`0b` prefixes of the full JS semantics are outside every claim.) -/
def parseBigInt (s : JStr) : Option Int :=
  match s with
  | [] => some 0
  | '-' :: r => if r ≠ [] && r.all Char.isDigit
      then some (-(r.foldl (fun a c => 10 * a + (c.toNat - 48)) 0 : Nat)) else none
  | '+' :: r => if r ≠ [] && r.all Char.isDigit
      then some ((r.foldl (fun a c => 10 * a + (c.toNat - 48)) 0 : Nat)) else none
  | s => if s.all Char.isDigit
      then some ((s.foldl (fun a c => 10 * a + (c.toNat - 48)) 0 : Nat)) else none

/-- JS `Number(string)` on the payload strings the decoder passes it:
empty is `0`, the infinity words are infinite, an optionally signed
digit run is its value, anything else is NaN. (Fractional and
exponent forms are outside every claim.) -/
def jsNumber (s : JStr) : JNum :=
  if s = [] then .finite 0
  else if s = "Infinity".toList || s = "+Infinity".toList then .inf
  else if s = "-Infinity".toList then .ninf
  else
    match parseBigInt s with
    | some i => .finite i
    | none => .nan

/-- JS `new Date(ms)`: the time value is clipped to the representable
range, out-of-range or NaN arguments give an invalid date (time NaN). -/
def mkDate (t : JNum) : JSV :=
  match t with
  | .finite ms => if ms.natAbs ≤ 8640000000000000 then .date (.finite ms) else .date .nan
  | _ => .date .nan

/-- The string branch of the `JSON.parse` reviver hook installed by
`JSSerialization.parse` (source lines 190-241), with no caller reviver
and no plugins: detect the token shape, decode the tag, transform the
recognised types, fall back to the unchanged string, and replace an
`undefined` result by the sentinel before returning. An invalid
BigInt payload propagates the constructor's throw. -/
def reviveString (s : JStr) : Except JSError JSV :=
  if isToken s then
    let p := parseDataURL s
    match p.type with
    | some t =>
      if t = "undefined".toList then .ok .sentinel
      else if t = "number".toList then
        if p.value = some "NaN".toList then .ok (.num .nan)
        else if p.value = some "Infinity".toList then .ok (.num .inf)
        else if p.value = some "-Infinity".toList then .ok (.num .ninf)
        else .ok (.str s)
      else if t = "bigint".toList then
        match p.value with
        | some pv =>
          match parseBigInt pv with
          | some i => .ok (.bigint i)
          | none => .error .bigIntError
        | none => .error .bigIntError
      else if t = "date".toList then
        match p.value with
        | some pv => .ok (mkDate (jsNumber pv))
        | none => .ok (mkDate .nan)
      else .ok (.str s)
    | none => .ok (.str s)
  else .ok (.str s)

/-- The value `JSON.parse(text, hook)` produces before the sweep, as a
function of the raw parsed tree: the hook runs bottom-up on every node;
with no caller reviver and no plugins it transforms exactly the string
nodes (via `reviveString`) and passes every other node through. -/
def decodeNode : Json → Except JSError JSV
  | .null => .ok .jsNull
  | .bool b => .ok (.bool b)
  | .num i => .ok (.num (.finite i))
  | .str s => reviveString s
  | .arr l => do
    let es ← l.attach.mapM fun e => decodeNode e.1
    return .arr es
  | .obj f => do
    let fs ← f.attach.mapM fun kv => do
      let v ← decodeNode kv.1.2
      return (kv.1.1, v)
    return .obj fs
termination_by j => sizeOf j
decreasing_by
  · have h := List.sizeOf_lt_of_mem e.2
    simp only [Json.arr.sizeOf_spec]
    omega
  · have h := List.sizeOf_lt_of_mem kv.2
    obtain ⟨⟨k0, v0⟩, hm⟩ := kv
    simp only [Json.obj.sizeOf_spec, Prod.mk.sizeOf_spec] at *
    omega

def isSentinel : JSV → Bool
  | .sentinel => true
  | _ => false

/-- The post-parse sweep (source lines 243-258) as a function on trees:
every object field and array element that holds the sentinel becomes
`undefined`, every nested structure is swept in turn, and a
non-container root is left untouched (a primitive or symbol root is
object-coerced by `Object.keys`, which finds no own keys; the one root
`Object.keys` rejects, `null`, is handled before this function is
applied — see `JSSerialization.parse`). The source performs this with
a FIFO work queue mutating the alias-free tree `JSON.parse` returned;
only truthy objects are enqueued, so nested `null`s never reach
`Object.keys`, and on such a tree the queue pass and this structural
pass compute the same result. -/
def sweep : JSV → JSV
  | .arr l => .arr (l.attach.map fun e => if isSentinel e.1 then .undef else sweep e.1)
  | .obj f => .obj (f.attach.map fun kv =>
      (kv.1.1, if isSentinel kv.1.2 then .undef else sweep kv.1.2))
  | v => v
termination_by v => sizeOf v
decreasing_by
  · have h := List.sizeOf_lt_of_mem e.2
    simp only [JSV.arr.sizeOf_spec]
    omega
  · have h := List.sizeOf_lt_of_mem kv.2
    obtain ⟨⟨k0, v0⟩, hm⟩ := kv
    simp only [JSV.obj.sizeOf_spec, Prod.mk.sizeOf_spec] at *
    omega

/-- Whether a parsed root is the one value the work queue cannot
process: the queue pass opens with `Object.keys(current)` on the raw
`JSON.parse` result (source line 246), and `Object.keys(null)` throws
a TypeError. Every other root (primitives, symbols, containers) is
object-coerced harmlessly, and a nested `null` is filtered by the
`value && typeof value === 'object'` truthiness check before it could
be enqueued, so the root is the only position where this matters.
The tag-decoding hook never produces `null` (only the literal does),
so testing the decoded root tests the raw root. -/
def isNullRoot : JSV → Bool
  | .jsNull => true
  | _ => false

/-- `JSSerialization.parse` (source lines 188-260) with no reviver and
no plugins: run the host parser with the tag-decoding hook, then sweep
the result with the work queue. A malformed text propagates the host
parser's failure; a `null` root makes the queue's first
`Object.keys(current)` call throw a TypeError (see `isNullRoot`). -/
def JSSerialization.parse (text : JStr) : Except JSError JSV :=
  match jsonParse text with
  | none => .error .syntaxError
  | some j => (decodeNode j).bind fun v =>
      if isNullRoot v then .error .typeError else .ok (sweep v)

theorem sizeOf_mem_arrJSV {e : JSV} {l : List JSV} (h : e ∈ l) :
    sizeOf e < sizeOf (JSV.arr l) := by
  have := List.sizeOf_lt_of_mem h
  simp only [JSV.arr.sizeOf_spec]
  omega

theorem sizeOf_mem_objJSV {kv : JStr × JSV} {f : List (JStr × JSV)} (h : kv ∈ f) :
    sizeOf kv.2 < sizeOf (JSV.obj f) := by
  have := List.sizeOf_lt_of_mem h
  obtain ⟨k0, v0⟩ := kv
  simp only [JSV.obj.sizeOf_spec, Prod.mk.sizeOf_spec] at *
  omega

theorem sizeOf_mem_arrJson {e : Json} {l : List Json} (h : e ∈ l) :
    sizeOf e < sizeOf (Json.arr l) := by
  have := List.sizeOf_lt_of_mem h
  simp only [Json.arr.sizeOf_spec]
  omega

theorem sizeOf_mem_objJson {kv : JStr × Json} {f : List (JStr × Json)} (h : kv ∈ f) :
    sizeOf kv.2 < sizeOf (Json.obj f) := by
  have := List.sizeOf_lt_of_mem h
  obtain ⟨k0, v0⟩ := kv
  simp only [Json.obj.sizeOf_spec, Prod.mk.sizeOf_spec] at *
  omega

/-- Compact rendering of a host-format tree with the library's string
quoting; proof artifact connecting `str` to the parsed tree. -/
def jsonRender : Json → JStr
  | .null => "null".toList
  | .bool b => if b then "true".toList else "false".toList
  | .num i => jsIntToString i
  | .str s => quote s
  | .arr l => '[' :: List.intercalate [','] (l.attach.map fun e => jsonRender e.1) ++ [']']
  | .obj f => lbrace :: List.intercalate [',']
      (f.attach.map fun kv => quote kv.1.1 ++ ':' :: jsonRender kv.1.2) ++ [rbrace]
termination_by j => sizeOf j
decreasing_by
  · exact sizeOf_mem_arrJson e.2
  · exact sizeOf_mem_objJson kv.2

/-- The host-format tree the compact encoding of a value denotes;
proof artifact (`sentinel`/`unsupported` are excluded by `wf`). -/
def encodeJson : JSV → Json
  | .undef => .str (toDataURL "undefined".toList [])
  | .jsNull => .null
  | .bool b => .bool b
  | .num .nan => .str (toDataURL "number".toList "NaN".toList)
  | .num .inf => .str (toDataURL "number".toList "Infinity".toList)
  | .num .ninf => .str (toDataURL "number".toList "-Infinity".toList)
  | .num (.finite i) => .num i
  | .str s => .str s
  | .bigint i => .str (toDataURL "bigint".toList (jsIntToString i))
  | .date t => .str (toDataURL "date".toList (jnumToString t))
  | .arr l => .arr (l.attach.map fun e => encodeJson e.1)
  | .obj f => .obj (f.attach.map fun kv => (kv.1.1, encodeJson kv.1.2))
  | .sentinel => .null
  | .unsupported => .null
termination_by v => sizeOf v
decreasing_by
  · exact sizeOf_mem_arrJSV e.2
  · exact sizeOf_mem_objJSV kv.2

/-- The value `decodeNode` recovers from an encoded tree: the original
value with every absent leaf replaced by the sentinel; proof artifact. -/
def sentinelize : JSV → JSV
  | .undef => .sentinel
  | .arr l => .arr (l.attach.map fun e => sentinelize e.1)
  | .obj f => .obj (f.attach.map fun kv => (kv.1.1, sentinelize kv.1.2))
  | v => v
termination_by v => sizeOf v
decreasing_by
  · exact sizeOf_mem_arrJSV e.2
  · exact sizeOf_mem_objJSV kv.2

/-- The value universe of the round-trip claim: the serialisable types,
with object keys unique as in any JS object, Date times valid, and
finite numbers in the range where JS prints plain decimal notation. -/
def wf : JSV → Bool
  | .undef => true
  | .jsNull => true
  | .bool _ => true
  | .num (.finite i) => i.natAbs < 10 ^ 21
  | .num _ => true
  | .str _ => true
  | .bigint _ => true
  | .date (.finite ms) => ms.natAbs ≤ 8640000000000000
  | .date _ => false
  | .arr l => l.attach.all fun e => wf e.1
  | .obj f => decide (f.map Prod.fst).Nodup && (f.attach.all fun kv => wf kv.1.2)
  | .sentinel => false
  | .unsupported => false
termination_by v => sizeOf v
decreasing_by
  · exact sizeOf_mem_arrJSV e.2
  · exact sizeOf_mem_objJSV kv.2

/-- No string value anywhere in the tree matches the token-detection
pattern (keys are never tag-decoded and are unrestricted). -/
def tokenFree : JSV → Bool
  | .str s => !isToken s
  | .arr l => l.attach.all fun e => tokenFree e.1
  | .obj f => f.attach.all fun kv => tokenFree kv.1.2
  | _ => true
termination_by v => sizeOf v
decreasing_by
  · exact sizeOf_mem_arrJSV e.2
  · exact sizeOf_mem_objJSV kv.2

/-- No string value anywhere in a host tree matches the token pattern. -/
def tokenFreeJson : Json → Bool
  | .str s => !isToken s
  | .arr l => l.attach.all fun e => tokenFreeJson e.1
  | .obj f => f.attach.all fun kv => tokenFreeJson kv.1.2
  | _ => true
termination_by j => sizeOf j
decreasing_by
  · exact sizeOf_mem_arrJson e.2
  · exact sizeOf_mem_objJson kv.2

/-- No object field or array element at any depth holds the sentinel. -/
def cleanFields : JSV → Bool
  | .arr l => l.attach.all fun e => !isSentinel e.1 && cleanFields e.1
  | .obj f => f.attach.all fun kv => !isSentinel kv.1.2 && cleanFields kv.1.2
  | _ => true
termination_by v => sizeOf v
decreasing_by
  · exact sizeOf_mem_arrJSV e.2
  · exact sizeOf_mem_objJSV kv.2

/-- Modelled from the spec: the escaping of the host format's native
`stringify` ("only its quoting and escaping rules must be matched
bit-exactly"): it escapes the quote, the backslash and the C0 control
range only, with the same two-character escapes and lowercase
`\uXXXX` forms. -/
def nativeEscapeChar (c : Char) : JStr :=
  if c = '"' then ['\\', '"']
  else if c = '\\' then ['\\', '\\']
  else if c.toNat < 32 then
    match meta c with
    | some m => m
    | none => '\\' :: 'u' :: hex4 c.toNat
  else [c]

/-- Modelled from the spec: native string quoting. -/
def nativeQuote (s : JStr) : JStr :=
  '"' :: s.flatMap nativeEscapeChar ++ ['"']

/-- Modelled from the spec: the host format's native `stringify`
(compact form, no replacer), on the plain-JSON value universe; values
native JSON cannot serialise at all (BigInt throws, Date goes through
its own `toJSON`) are outside the compared domain and map to `none`. -/
def nativeStr : JSV → Option JStr
  | .undef => none
  | .sentinel => none
  | .unsupported => none
  | .jsNull => some ("null".toList)
  | .bool b => some (if b then "true".toList else "false".toList)
  | .num (.finite i) => some (jsIntToString i)
  | .num _ => some ("null".toList)
  | .str s => some (nativeQuote s)
  | .bigint _ => none
  | .date _ => none
  | .arr l => some ('[' :: List.intercalate [',']
      (l.attach.map fun e => (nativeStr e.1).getD ("null".toList)) ++ [']'])
  | .obj f => some (lbrace :: List.intercalate [',']
      (f.attach.filterMap fun kv =>
        (nativeStr kv.1.2).map fun vt => nativeQuote kv.1.1 ++ ':' :: vt) ++ [rbrace])
termination_by v => sizeOf v
decreasing_by
  · exact sizeOf_mem_arrJSV e.2
  · exact sizeOf_mem_objJSV kv.2

/-- Modelled from the spec: the value the host format's native `parse`
(no reviver) returns for a parsed tree — the tree itself as a JS value. -/
def jsvOfJson : Json → JSV
  | .null => .jsNull
  | .bool b => .bool b
  | .num i => .num (.finite i)
  | .str s => .str s
  | .arr l => .arr (l.attach.map fun e => jsvOfJson e.1)
  | .obj f => .obj (f.attach.map fun kv => (kv.1.1, jsvOfJson kv.1.2))
termination_by j => sizeOf j
decreasing_by
  · exact sizeOf_mem_arrJson e.2
  · exact sizeOf_mem_objJson kv.2

/-- A character the library escapes beyond the native-mandatory set. -/
def extraEscapable (c : Char) : Bool :=
  isEscapable c && !(c = '"' || c = '\\' || c.toNat < 32)

/-- Strings whose characters escape identically under both quoting
functions. -/
def plainStr (s : JStr) : Bool := s.all fun c => !extraEscapable c

/-- The plain-JSON value universe of the native-equivalence claim: no
extended types anywhere, and all strings (keys included) free of the
library's extra escapable characters. -/
def plainVal : JSV → Bool
  | .undef => false
  | .jsNull => true
  | .bool _ => true
  | .num (.finite _) => true
  | .num _ => false
  | .str s => plainStr s
  | .bigint _ => false
  | .date _ => false
  | .sentinel => false
  | .unsupported => true
  | .arr l => l.attach.all fun e => plainVal e.1
  | .obj f => f.attach.all fun kv => plainStr kv.1.1 && plainVal kv.1.2
termination_by v => sizeOf v
decreasing_by
  · exact sizeOf_mem_arrJSV e.2
  · exact sizeOf_mem_objJSV kv.2

theorem splitOn_cons_head (sep : Char) (l : JStr) :
    ∃ ss, splitOn sep l = l.takeWhile (· ≠ sep) :: ss := by
  induction l with
  | nil => exact ⟨[], rfl⟩
  | cons c r ih =>
    obtain ⟨ss, hss⟩ := ih
    by_cases h : c = sep
    · subst h
      refine ⟨splitOn c r, ?_⟩
      simp [splitOn, List.takeWhile]
    · refine ⟨ss, ?_⟩
      simp only [splitOn, if_neg h, hss, List.takeWhile]
      simp [h]

theorem splitOn_append_first (sep : Char) (pre post : JStr) (h : sep ∉ pre) :
    splitOn sep (pre ++ sep :: post) = pre :: splitOn sep post := by
  induction pre with
  | nil => simp [splitOn]
  | cons c r ih =>
    have hc : c ≠ sep := fun heq => h (heq ▸ List.mem_cons_self c r)
    have hr : sep ∉ r := fun hm => h (List.mem_cons_of_mem c hm)
    simp only [List.cons_append, splitOn, if_neg hc, List.append_eq, ih hr]

/-- C3 counterexample: for the token `"data:bigint,1,2"`, whose payload
contains the separator, `parseDataURL` does NOT return the entire
remainder `"1,2"` after the first separator — it returns only `"1"`,
the segment before the second separator. -/
theorem C3_cex :
    parseDataURL "data:bigint,1,2".toList =
      ⟨some "bigint".toList, some "1".toList⟩ ∧
    some "1".toList ≠ some "1,2".toList := by
  constructor
  · rfl
  · decide

/-- C3 (amended): `parseDataURL` splits on the first separator
occurrence, and the decoded value is the portion of the remainder up
to (not including) the next separator; text after a second separator
is discarded. -/
theorem C3_value_to_second_separator (pre post : JStr) (h : ',' ∉ pre) :
    (parseDataURL (pre ++ ',' :: post)).value =
      some (post.takeWhile (· ≠ ',')) := by
  obtain ⟨ss, hss⟩ := splitOn_cons_head ',' post
  simp [parseDataURL, splitOn_append_first ',' pre post h, hss]

theorem C3_value_to_second_separator_witness :
    (',' ∉ "data:bigint".toList) ∧
    (parseDataURL ("data:bigint".toList ++ ',' :: "1,2".toList)).value =
      some ("1,2".toList.takeWhile (· ≠ ',')) :=
  ⟨by decide, C3_value_to_second_separator "data:bigint".toList "1,2".toList (by decide)⟩

/-- C5: `quote` escapes exactly the backslash (92), the double quote
(34), the C0 (≤ 31) and C1 (128-159) control ranges, and the fixed
additional unsafe set (DEL, soft hyphen, the Arabic/Khmer/format
control points, line/paragraph separator block, word joiners, BOM, and
the top-of-BMP specials); the seven characters of the `meta` table get
their two-character escapes, every other escaped character gets the
4-hex-digit `\uXXXX` form, and a string with no escapable character is
returned quoted without substitution; `quote "a\nb\"c"` uses the
two-character escapes. -/
theorem C5_quote_escaping :
    (∀ s : JStr, (∀ c ∈ s, isEscapable c = false) → quote s = '"' :: (s ++ ['"'])) ∧
    (escapeChar (Char.ofNat 8) = ['\\', 'b'] ∧ escapeChar (Char.ofNat 9) = ['\\', 't'] ∧
      escapeChar (Char.ofNat 10) = ['\\', 'n'] ∧ escapeChar (Char.ofNat 12) = ['\\', 'f'] ∧
      escapeChar (Char.ofNat 13) = ['\\', 'r'] ∧ escapeChar '"' = ['\\', '"'] ∧
      escapeChar '\\' = ['\\', '\\']) ∧
    (∀ c : Char, c.toNat ∉ [8, 9, 10, 12, 13, 34, 92] →
      escapeChar c = '\\' :: 'u' :: hex4 c.toNat) ∧
    (∀ c : Char, isEscapable c = true ↔
      (c.toNat = 92 ∨ c.toNat = 34 ∨ c.toNat ≤ 31 ∨ (128 ≤ c.toNat ∧ c.toNat ≤ 159) ∨
        (c.toNat = 127 ∨ c.toNat = 173 ∨ (1536 ≤ c.toNat ∧ c.toNat ≤ 1540) ∨
          c.toNat = 1807 ∨ c.toNat = 6068 ∨ c.toNat = 6069 ∨
          (8204 ≤ c.toNat ∧ c.toNat ≤ 8207) ∨ (8232 ≤ c.toNat ∧ c.toNat ≤ 8239) ∨
          (8288 ≤ c.toNat ∧ c.toNat ≤ 8303) ∨ c.toNat = 65279 ∨
          (65520 ≤ c.toNat ∧ c.toNat ≤ 65535)))) ∧
    quote "a\nb\"c".toList = "\"a\\nb\\\"c\"".toList := by
  refine ⟨?_, by decide, ?_, ?_, by decide⟩
  · intro s h
    have ha : s.any isEscapable = false := by
      rw [List.any_eq_false]
      intro c hc
      simp [h c hc]
    simp [quote, ha]
  · intro c hc
    simp only [List.mem_cons, List.not_mem_nil, or_false] at hc
    push_neg at hc
    obtain ⟨h8, h9, h10, h12, h13, h34, h92⟩ := hc
    have hq : c ≠ '"' := fun h => h34 (by rw [h]; rfl)
    have hb : c ≠ '\\' := fun h => h92 (by rw [h]; rfl)
    simp [escapeChar, meta, h8, h9, h10, h12, h13, hq, hb]
  · intro c
    simp only [isEscapable, Bool.or_eq_true, Bool.and_eq_true, decide_eq_true_eq]
    omega

theorem C5_quote_escaping_witness :
    (∀ c ∈ "ab".toList, isEscapable c = false) ∧
    quote "ab".toList = '"' :: ("ab".toList ++ ['"']) :=
  ⟨by decide, C5_quote_escaping.1 "ab".toList (by decide)⟩

/-- C7 counterexample: the number `0` is a replacer that is neither a
function, nor `null`, nor `undefined`, nor array-like with a numeric
length (it is a falsy primitive), yet `stringify` does not throw — it
succeeds, because the source's check first requires the replacer to be
truthy. -/
theorem C7_cex :
    JSSerialization.stringify (.bool true) (.prim false) .noSpace =
      .ok (some ("true".toList)) := by
  simp [JSSerialization.stringify, replacerInvalid, repOf, indentOf, str]

/-- C7 (amended): `stringify` throws, immediately and synchronously,
exactly when the replacer argument is truthy and neither a function
nor an object with a numeric `length` property: a truthy primitive or
a plain object. Functions, `null`, `undefined`, array-likes with
numeric length — and also falsy primitives such as `0`, `''`, `false`
or `NaN` — never trigger the failure. -/
theorem C7_invalid_replacer (v : JSV) (r : RepArg) (sp : SpaceArg) :
    JSSerialization.stringify v r sp = .error .invalidReplacer ↔
      (r = .prim true ∨ r = .plainObj) := by
  cases r
  case prim t => cases t <;> simp [JSSerialization.stringify, replacerInvalid]
  all_goals simp [JSSerialization.stringify, replacerInvalid]

/-- C6: during parse (no reviver, no plugins) a string node that does
not match the token shape, or whose type component is not one of
`undefined`/`number`/`bigint`/`date`, is left as the ordinary string,
with no transformation and no error. -/
theorem C6_unrecognized_passthrough (s : JStr)
    (h : isToken s = false ∨ ∀ t, (parseDataURL s).type = some t →
      t ≠ "undefined".toList ∧ t ≠ "number".toList ∧
      t ≠ "bigint".toList ∧ t ≠ "date".toList) :
    decodeNode (.str s) = .ok (.str s) := by
  have hd : decodeNode (.str s) = reviveString s := by simp [decodeNode]
  rw [hd]
  by_cases ht : isToken s
  · rcases h with h | h
    · rw [ht] at h; cases h
    · simp only [reviveString, ht, if_true]
      cases hp : (parseDataURL s).type with
      | none => simp
      | some t =>
        obtain ⟨h1, h2, h3, h4⟩ := h t hp
        simp only [hp]
        rw [if_neg h1, if_neg h2, if_neg h3, if_neg h4]
  · simp [reviveString, ht]

theorem C6_unrecognized_passthrough_witness :
    decodeNode (.str "hello".toList) = .ok (.str "hello".toList) :=
  C6_unrecognized_passthrough "hello".toList (Or.inl (by decide))

/-- C10: `stringify` of a top-level absent value produces the quoted
absent token; `parse` of exactly that text returns the internal
sentinel itself, not the absent value, because the sweep rewrites only
fields inside containers and never the root result. -/
theorem C10_root_sentinel :
    JSSerialization.stringify .undef .undef .noSpace =
      .ok (some "\"data:undefined,\"".toList) ∧
    JSSerialization.parse "\"data:undefined,\"".toList = .ok .sentinel ∧
    sweep .sentinel = .sentinel ∧
    JSV.sentinel ≠ JSV.undef := by
  refine ⟨?_, ?_, by simp [sweep], by simp⟩
  · simp [JSSerialization.stringify, replacerInvalid, repOf, indentOf, str,
      quote, toDataURL, isEscapable]
  · unfold JSSerialization.parse
    rw [show jsonParse "\"data:undefined,\"".toList =
        some (.str "data:undefined,".toList) from rfl]
    simp [decodeNode, reviveString, isToken, splitOn, parseDataURL, sweep,
      Except.bind, isNullRoot]

/-- Values whose encoding is a leaf text: every category except the
containers and the two categories `str` has no case for. -/
def scalarish : JSV → Bool
  | .arr _ => false
  | .obj _ => false
  | .sentinel => false
  | .unsupported => false
  | _ => true

/-- Objects all of whose field values are `scalarish`. -/
def flatFields (f : List (JStr × JSV)) : Bool :=
  f.all fun kv => scalarish kv.2

/-- The string entries of an inclusion-list replacer, in order. -/
def stringEntries : List JSV → List JStr
  | [] => []
  | .str k :: r => k :: stringEntries r
  | _ :: r => stringEntries r

theorem str_scalar (rp rp' : RepMode) (ind gap ind' gap' : JStr) (v : JSV)
    (h : scalarish v = true) :
    str rp ind gap v = str rp' ind' gap' v := by
  cases v with
  | num n => cases n <;> simp [str]
  | arr l => simp [scalarish] at h
  | obj f => simp [scalarish] at h
  | sentinel => simp [scalarish] at h
  | unsupported => simp [scalarish] at h
  | _ => simp [str]

theorem str_scalar_isSome (v : JSV) (h : scalarish v = true) :
    (str .noRep [] [] v).isSome = true := by
  cases v with
  | num n => cases n <;> simp [str]
  | arr l => simp [scalarish] at h
  | obj f => simp [scalarish] at h
  | sentinel => simp [scalarish] at h
  | unsupported => simp [scalarish] at h
  | _ => simp [str]

theorem scalarish_lookupJS (f : List (JStr × JSV)) (k : JStr)
    (h : flatFields f = true) : scalarish (lookupJS f k) = true := by
  induction f with
  | nil => simp [lookupJS, List.lookup, scalarish]
  | cons hd tl ih =>
    simp only [flatFields, List.all_cons, Bool.and_eq_true] at h
    obtain ⟨a, b⟩ := hd
    simp only [lookupJS, List.lookup]
    cases hk : k == a
    · exact ih h.2
    · simpa using h.1

theorem inclusion_parts (f : List (JStr × JSV)) (h : flatFields f = true)
    (entries : List JSV) (rp : RepMode) :
    (entries.filterMap fun e => match e with
      | JSV.str k => (str rp [] [] (lookupJS f k)).map fun vt => quote k ++ [':'] ++ vt
      | _ => none) =
    (stringEntries entries).map fun k =>
      quote k ++ ':' :: ((str .noRep [] [] (lookupJS f k)).getD []) := by
  induction entries with
  | nil => rfl
  | cons e r ih =>
    cases e with
    | str k =>
      have hs := scalarish_lookupJS f k h
      obtain ⟨x, hx⟩ := Option.isSome_iff_exists.mp (str_scalar_isSome _ hs)
      simp only [List.filterMap_cons, stringEntries, List.map_cons,
        str_scalar rp .noRep [] [] [] [] _ hs, hx, Option.map_some', Option.getD_some,
        List.singleton_append]
      rw [ih]
      simp [List.append_assoc]
    | _ =>
      simp only [List.filterMap_cons, stringEntries]
      exact ih

/-- C4 counterexample: with the duplicate inclusion list `['a','a']` on
`{a:1}`, each occurrence of the entry produces an output field — the
field is emitted twice, contradicting "at most one output field per
entry even when the same entry appears more than once". -/
theorem C4_cex :
    JSSerialization.stringify (.obj [("a".toList, .num (.finite 1))])
      (.arrArg [.str "a".toList, .str "a".toList]) .noSpace =
      .ok (some "\x7b\"a\":1,\"a\":1\x7d".toList) ∧
    "\x7b\"a\":1,\"a\":1\x7d".toList ≠ "\x7b\"a\":1\x7d".toList := by
  refine ⟨?_, by decide⟩
  simp [JSSerialization.stringify, replacerInvalid, repOf, indentOf, str, lookupJS,
    List.lookup, quote, isEscapable, jsIntToString, natToDigits, Nat.digitChar,
    List.intercalate, lbrace, rbrace]

/-- C4 (amended): on an object node an inclusion-list replacer honours
exactly the string entries of the list, in list order, emitting for
each occurrence of an entry `k` one `"k":value` field built from the
object's `k` property (so a duplicated entry yields a duplicated
field); the claim's own example `stringify({a:1,b:2,c:3}, ['c','a'])`
emits only `c` then `a`, omitting `b`. -/
theorem C4_inclusion_list :
    (∀ (entries : List JSV) (f : List (JStr × JSV)), flatFields f = true →
      str (.listRep entries) [] [] (.obj f) =
        some (lbrace :: List.intercalate [',']
          ((stringEntries entries).map fun k =>
            quote k ++ ':' :: ((str .noRep [] [] (lookupJS f k)).getD [])) ++ [rbrace])) ∧
    JSSerialization.stringify
        (.obj [("a".toList, .num (.finite 1)), ("b".toList, .num (.finite 2)),
               ("c".toList, .num (.finite 3))])
        (.arrArg [.str "c".toList, .str "a".toList]) .noSpace =
      .ok (some "\x7b\"c\":3,\"a\":1\x7d".toList) := by
  constructor
  · intro entries f h
    simp only [str, List.append_nil, List.nil_append, List.isEmpty_nil, if_true]
    rw [inclusion_parts f h entries]
    cases hse : (stringEntries entries).map fun k =>
        quote k ++ ':' :: ((str .noRep [] [] (lookupJS f k)).getD []) with
    | nil => simp [List.intercalate]
    | cons a l => simp [List.isEmpty]
  · simp [JSSerialization.stringify, replacerInvalid, repOf, indentOf, str, lookupJS,
      List.lookup, quote, isEscapable, jsIntToString, natToDigits, Nat.digitChar,
      List.intercalate, lbrace, rbrace]

theorem C4_inclusion_list_witness :
    flatFields [("a".toList, JSV.num (.finite 1))] = true ∧
    str (.listRep [.str "a".toList]) [] [] (.obj [("a".toList, .num (.finite 1))]) =
      some (lbrace :: List.intercalate [',']
        ((stringEntries [.str "a".toList]).map fun k =>
          quote k ++ ':' ::
            ((str .noRep [] [] (lookupJS [("a".toList, JSV.num (.finite 1))] k)).getD []))
        ++ [rbrace]) :=
  ⟨by decide, C4_inclusion_list.1 [.str "a".toList] [("a".toList, .num (.finite 1))]
    (by decide)⟩

/-- C9 counterexample: an array element holding the absent value (the
lookup result for a missing/sparse index is the same `undefined`) does
NOT become the text `null` — it becomes the quoted absent token, since
the encoder's `undefined` case returns a truthy string. -/
theorem C9_cex :
    JSSerialization.stringify (.arr [.undef]) .undef .noSpace =
      .ok (some "[\"data:undefined,\"]".toList) ∧
    "[\"data:undefined,\"]".toList ≠ "[null]".toList := by
  refine ⟨?_, by decide⟩
  simp [JSSerialization.stringify, replacerInvalid, repOf, indentOf, str, quote,
    toDataURL, isEscapable, List.intercalate]

/-- C9 (amended): encoding an array recurses over indices 0..length-1
in order; an element for which the encoder produces no text (a
non-serialisable value such as a function or symbol) becomes the text
`null`, while missing/absent elements become the absent token; the
element texts are joined with commas and wrapped in brackets, and when
the accumulated indent is non-empty the pretty-printed form with
newline-plus-indent separators and the enclosing indent is produced. -/
theorem C9_array_encoding :
    (∀ (rp : RepMode) (ind gap : JStr) (l : List JSV),
      str rp ind gap (.arr l) = some (
        if l.isEmpty then "[]".toList
        else if (gap ++ ind).isEmpty then
          '[' :: List.intercalate [',']
            (l.map fun e => (str rp ind (gap ++ ind) e).getD ("null".toList)) ++ [']']
        else '[' :: '\n' :: (gap ++ ind) ++
          List.intercalate (',' :: '\n' :: (gap ++ ind))
            (l.map fun e => (str rp ind (gap ++ ind) e).getD ("null".toList)) ++
          '\n' :: gap ++ [']'])) ∧
    str .noRep [] [] (.arr [.unsupported]) = some "[null]".toList := by
  constructor
  · intro rp ind gap l
    simp only [str]
    rw [List.attach_map_val l (fun e => (str rp ind (gap ++ ind) e).getD ("null".toList))]
    have hlen : ((l.map fun e =>
        (str rp ind (gap ++ ind) e).getD ("null".toList)).isEmpty) = l.isEmpty := by
      cases l <;> simp
    rw [hlen]
  · simp [str, List.intercalate]

theorem sweep_arr (l : List JSV) :
    sweep (.arr l) = .arr (l.map fun e => if isSentinel e then .undef else sweep e) := by
  simp only [sweep]
  rw [List.attach_map_val l (fun e => if isSentinel e then .undef else sweep e)]

theorem sweep_obj (f : List (JStr × JSV)) :
    sweep (.obj f) =
      .obj (f.map fun kv => (kv.1, if isSentinel kv.2 then .undef else sweep kv.2)) := by
  simp only [sweep]
  rw [List.attach_map_val f (fun kv => (kv.1, if isSentinel kv.2 then .undef else sweep kv.2))]

theorem isSentinel_sweep (v : JSV) : isSentinel (sweep v) = isSentinel v := by
  cases v <;> simp [sweep, isSentinel]

theorem cleanFields_arr (l : List JSV) :
    cleanFields (.arr l) = true ↔ ∀ e ∈ l, isSentinel e = false ∧ cleanFields e = true := by
  simp [cleanFields, List.all_eq_true, List.mem_attach, Subtype.forall]

theorem cleanFields_obj (f : List (JStr × JSV)) :
    cleanFields (.obj f) = true ↔
      ∀ kv ∈ f, isSentinel kv.2 = false ∧ cleanFields kv.2 = true := by
  simp [cleanFields, List.all_eq_true, List.mem_attach, Subtype.forall]

theorem cleanFields_sweep (v : JSV) : cleanFields (sweep v) = true := by
  induction v using sweep.induct with
  | case1 l ih =>
    rw [sweep_arr, cleanFields_arr]
    intro x hx
    obtain ⟨e, he, rfl⟩ := List.mem_map.mp hx
    cases hs : isSentinel e
    · simp only [hs, Bool.false_eq_true, if_false]
      exact ⟨by rw [isSentinel_sweep]; exact hs, ih ⟨e, he⟩⟩
    · simp only [hs, if_true]
      exact ⟨rfl, by simp [cleanFields]⟩
  | case2 f ih =>
    rw [sweep_obj, cleanFields_obj]
    intro x hx
    obtain ⟨kv, hkv, rfl⟩ := List.mem_map.mp hx
    cases hs : isSentinel kv.2
    · simp only [hs, Bool.false_eq_true, if_false]
      refine ⟨by rw [isSentinel_sweep]; exact hs, ?_⟩
      first
      | exact ih ⟨kv, hkv⟩
      | exact ih ⟨kv, hkv⟩ (by simp [hs])
    · simp only [hs, if_true]
      exact ⟨rfl, by simp [cleanFields]⟩
  | case3 v h1 h2 =>
    cases v
    case arr l => exact absurd rfl (h1 l)
    case obj f => exact absurd rfl (h2 f)
    all_goals simp [sweep, cleanFields]

theorem attach_filterMap_val {α β : Type} (l : List α) (g : α → Option β) :
    (l.attach.filterMap fun e => g e.1) = l.filterMap g := by
  rw [show (l.attach.filterMap fun e => g e.1) =
      ((l.attach.map Subtype.val).filterMap g) from
    (List.filterMap_map Subtype.val g l.attach).symm]
  rw [List.attach_map_subtype_val]

theorem attach_all_val {α : Type} (l : List α) (p : α → Bool) :
    (l.attach.all fun e => p e.1) = l.all p := by
  have h : ∀ (l' : List {x // x ∈ l}),
      (l'.all fun e => p e.1) = (l'.map Subtype.val).all p := by
    intro l'
    induction l' with
    | nil => rfl
    | cons a r ih => simp only [List.all_cons, List.map_cons, ih]
  rw [h, List.attach_map_subtype_val]

theorem attach_mapM_except {α β ε : Type} (l : List α) (g : α → Except ε β) :
    (l.attach.mapM fun e => g e.1) = l.mapM g := by
  have hmm : ∀ (l' : List {x // x ∈ l}),
      (l'.mapM fun e => g e.1) = (l'.map Subtype.val).mapM g := by
    intro l'
    induction l' with
    | nil => rfl
    | cons a r ih => rw [List.map_cons, List.mapM_cons, List.mapM_cons, ih]
  rw [hmm, List.attach_map_subtype_val]

theorem jsvInduction (motive : JSV → Prop)
    (hundef : motive .undef) (hnull : motive .jsNull)
    (hbool : ∀ b, motive (.bool b)) (hnum : ∀ n, motive (.num n))
    (hstr : ∀ s, motive (.str s)) (hbig : ∀ i, motive (.bigint i))
    (hdate : ∀ t, motive (.date t))
    (harr : ∀ l, (∀ e ∈ l, motive e) → motive (.arr l))
    (hobj : ∀ f, (∀ kv ∈ f, motive kv.2) → motive (.obj f))
    (hsent : motive .sentinel) (huns : motive .unsupported) :
    ∀ v, motive v := by
  have H : ∀ (n : Nat) (v : JSV), sizeOf v ≤ n → motive v := by
    intro n
    induction n with
    | zero =>
      intro v hv
      cases v <;> simp_arith at hv
    | succ n ih =>
      intro v hv
      cases v with
      | arr l =>
        refine harr l fun e he => ih e ?_
        have := List.sizeOf_lt_of_mem he
        simp only [JSV.arr.sizeOf_spec] at hv
        omega
      | obj f =>
        refine hobj f fun kv hkv => ih kv.2 ?_
        have h1 := List.sizeOf_lt_of_mem hkv
        have h2 : sizeOf kv.2 < sizeOf kv := by
          obtain ⟨a, b⟩ := kv
          simp [Prod.mk.sizeOf_spec]
        simp only [JSV.obj.sizeOf_spec] at hv
        omega
      | undef => exact hundef
      | jsNull => exact hnull
      | bool b => exact hbool b
      | num m => exact hnum m
      | str s => exact hstr s
      | bigint i => exact hbig i
      | date t => exact hdate t
      | sentinel => exact hsent
      | unsupported => exact huns
  exact fun v => H (sizeOf v) v (Nat.le_refl _)

theorem jsonInduction (motive : Json → Prop)
    (hnull : motive .null) (hbool : ∀ b, motive (.bool b))
    (hnum : ∀ i, motive (.num i)) (hstr : ∀ s, motive (.str s))
    (harr : ∀ l, (∀ e ∈ l, motive e) → motive (.arr l))
    (hobj : ∀ f, (∀ kv ∈ f, motive kv.2) → motive (.obj f)) :
    ∀ j, motive j := by
  have H : ∀ (n : Nat) (j : Json), sizeOf j ≤ n → motive j := by
    intro n
    induction n with
    | zero =>
      intro j hv
      cases j <;> simp_arith at hv
    | succ n ih =>
      intro j hv
      cases j with
      | arr l =>
        refine harr l fun e he => ih e ?_
        have := List.sizeOf_lt_of_mem he
        simp only [Json.arr.sizeOf_spec] at hv
        omega
      | obj f =>
        refine hobj f fun kv hkv => ih kv.2 ?_
        have h1 := List.sizeOf_lt_of_mem hkv
        have h2 : sizeOf kv.2 < sizeOf kv := by
          obtain ⟨a, b⟩ := kv
          simp [Prod.mk.sizeOf_spec]
        simp only [Json.obj.sizeOf_spec] at hv
        omega
      | null => exact hnull
      | bool b => exact hbool b
      | num i => exact hnum i
      | str s => exact hstr s
  exact fun j => H (sizeOf j) j (Nat.le_refl _)

theorem str_arr_eq (rp : RepMode) (ind gap : JStr) (l : List JSV) :
    str rp ind gap (.arr l) = some (
      if l.isEmpty then "[]".toList
      else if (gap ++ ind).isEmpty then
        '[' :: List.intercalate [',']
          (l.map fun e => (str rp ind (gap ++ ind) e).getD ("null".toList)) ++ [']']
      else '[' :: '\n' :: (gap ++ ind) ++
        List.intercalate (',' :: '\n' :: (gap ++ ind))
          (l.map fun e => (str rp ind (gap ++ ind) e).getD ("null".toList)) ++
        '\n' :: gap ++ [']']) := by
  simp only [str]
  rw [List.attach_map_val l (fun e => (str rp ind (gap ++ ind) e).getD ("null".toList))]
  have hlen : ((l.map fun e =>
      (str rp ind (gap ++ ind) e).getD ("null".toList)).isEmpty) = l.isEmpty := by
    cases l <;> simp
  rw [hlen]

theorem str_obj_noRep_eq (ind gap : JStr) (f : List (JStr × JSV)) :
    str .noRep ind gap (.obj f) = some (
      if (f.filterMap fun kv => (str .noRep ind (gap ++ ind) kv.2).map
          fun vt => quote kv.1 ++
            (if (gap ++ ind).isEmpty then [':'] else [':', ' ']) ++ vt).isEmpty
      then [lbrace, rbrace]
      else if (gap ++ ind).isEmpty then
        lbrace :: List.intercalate [',']
          (f.filterMap fun kv => (str .noRep ind (gap ++ ind) kv.2).map
            fun vt => quote kv.1 ++
              (if (gap ++ ind).isEmpty then [':'] else [':', ' ']) ++ vt) ++ [rbrace]
      else lbrace :: '\n' :: (gap ++ ind) ++
        List.intercalate (',' :: '\n' :: (gap ++ ind))
          (f.filterMap fun kv => (str .noRep ind (gap ++ ind) kv.2).map
            fun vt => quote kv.1 ++
              (if (gap ++ ind).isEmpty then [':'] else [':', ' ']) ++ vt) ++
        '\n' :: gap ++ [rbrace]) := by
  simp only [str]
  rw [attach_filterMap_val f (fun kv => (str .noRep ind (gap ++ ind) kv.2).map
    fun vt => quote kv.1 ++
      (if (gap ++ ind).isEmpty then [':'] else [':', ' ']) ++ vt)]

theorem decodeNode_arr (l : List Json) :
    decodeNode (.arr l) = do { let es ← l.mapM decodeNode; return JSV.arr es } := by
  simp only [decodeNode]
  rw [attach_mapM_except l decodeNode]

theorem decodeNode_obj (f : List (JStr × Json)) :
    decodeNode (.obj f) = do {
      let fs ← f.mapM fun kv => do { let v ← decodeNode kv.2; return (kv.1, v) }
      return JSV.obj fs } := by
  simp only [decodeNode]
  rw [attach_mapM_except f (fun kv => do { let v ← decodeNode kv.2; return (kv.1, v) })]

theorem wf_arr (l : List JSV) : wf (.arr l) = l.all wf := by
  simp only [wf]
  rw [attach_all_val l wf]

theorem wf_obj (f : List (JStr × JSV)) :
    wf (.obj f) = (decide (f.map Prod.fst).Nodup && f.all fun kv => wf kv.2) := by
  simp only [wf]
  rw [attach_all_val f (fun kv => wf kv.2)]

theorem tokenFree_arr (l : List JSV) : tokenFree (.arr l) = l.all tokenFree := by
  simp only [tokenFree]
  rw [attach_all_val l tokenFree]

theorem tokenFree_obj (f : List (JStr × JSV)) :
    tokenFree (.obj f) = f.all fun kv => tokenFree kv.2 := by
  simp only [tokenFree]
  rw [attach_all_val f (fun kv => tokenFree kv.2)]

theorem plainVal_arr (l : List JSV) : plainVal (.arr l) = l.all plainVal := by
  simp only [plainVal]
  rw [attach_all_val l plainVal]

theorem plainVal_obj (f : List (JStr × JSV)) :
    plainVal (.obj f) = f.all fun kv => plainStr kv.1 && plainVal kv.2 := by
  simp only [plainVal]
  rw [attach_all_val f (fun kv => plainStr kv.1 && plainVal kv.2)]

theorem encodeJson_arr (l : List JSV) :
    encodeJson (.arr l) = .arr (l.map encodeJson) := by
  simp only [encodeJson]
  rw [List.attach_map_val l encodeJson]

theorem encodeJson_obj (f : List (JStr × JSV)) :
    encodeJson (.obj f) = .obj (f.map fun kv => (kv.1, encodeJson kv.2)) := by
  simp only [encodeJson]
  rw [List.attach_map_val f (fun kv => (kv.1, encodeJson kv.2))]

theorem sentinelize_arr (l : List JSV) :
    sentinelize (.arr l) = .arr (l.map sentinelize) := by
  simp only [sentinelize]
  rw [List.attach_map_val l sentinelize]

theorem sentinelize_obj (f : List (JStr × JSV)) :
    sentinelize (.obj f) = .obj (f.map fun kv => (kv.1, sentinelize kv.2)) := by
  simp only [sentinelize]
  rw [List.attach_map_val f (fun kv => (kv.1, sentinelize kv.2))]

theorem jsonRender_arr (l : List Json) :
    jsonRender (.arr l) =
      '[' :: List.intercalate [','] (l.map jsonRender) ++ [']'] := by
  simp only [jsonRender]
  rw [List.attach_map_val l jsonRender]

theorem jsonRender_obj (f : List (JStr × Json)) :
    jsonRender (.obj f) = lbrace :: List.intercalate [',']
      (f.map fun kv => quote kv.1 ++ ':' :: jsonRender kv.2) ++ [rbrace] := by
  simp only [jsonRender]
  rw [List.attach_map_val f (fun kv => quote kv.1 ++ ':' :: jsonRender kv.2)]

theorem nativeStr_arr (l : List JSV) :
    nativeStr (.arr l) = some ('[' :: List.intercalate [',']
      (l.map fun e => (nativeStr e).getD ("null".toList)) ++ [']']) := by
  simp only [nativeStr]
  rw [List.attach_map_val l (fun e => (nativeStr e).getD ("null".toList))]

theorem nativeStr_obj (f : List (JStr × JSV)) :
    nativeStr (.obj f) = some (lbrace :: List.intercalate [',']
      (f.filterMap fun kv =>
        (nativeStr kv.2).map fun vt => nativeQuote kv.1 ++ ':' :: vt) ++ [rbrace]) := by
  simp only [nativeStr]
  rw [attach_filterMap_val f (fun kv =>
    (nativeStr kv.2).map fun vt => nativeQuote kv.1 ++ ':' :: vt)]

theorem jsvOfJson_arr (l : List Json) :
    jsvOfJson (.arr l) = .arr (l.map jsvOfJson) := by
  simp only [jsvOfJson]
  rw [List.attach_map_val l jsvOfJson]

theorem jsvOfJson_obj (f : List (JStr × Json)) :
    jsvOfJson (.obj f) = .obj (f.map fun kv => (kv.1, jsvOfJson kv.2)) := by
  simp only [jsvOfJson]
  rw [List.attach_map_val f (fun kv => (kv.1, jsvOfJson kv.2))]

theorem tokenFreeJson_arr (l : List Json) :
    tokenFreeJson (.arr l) = l.all tokenFreeJson := by
  simp only [tokenFreeJson]
  rw [attach_all_val l tokenFreeJson]

theorem tokenFreeJson_obj (f : List (JStr × Json)) :
    tokenFreeJson (.obj f) = f.all fun kv => tokenFreeJson kv.2 := by
  simp only [tokenFreeJson]
  rw [attach_all_val f (fun kv => tokenFreeJson kv.2)]

/-- C8: every successful `parse` ends with the work-queue sweep having
visited every reachable structure, so no object field or array element
at any depth still holds the sentinel — every sentinel-valued field has
been replaced by the true absent value; concretely, a nested structure
with absent values at two depths restores both. -/
theorem C8_sweep_completeness :
    (∀ (t : JStr) (v : JSV), JSSerialization.parse t = .ok v →
      cleanFields v = true) ∧
    JSSerialization.parse
        "\x7b\"a\":\"data:undefined,\",\"b\":\x7b\"c\":\"data:undefined,\"\x7d\x7d".toList =
      .ok (.obj [("a".toList, .undef),
        ("b".toList, .obj [("c".toList, .undef)])]) := by
  constructor
  · intro t v h
    unfold JSSerialization.parse at h
    cases hj : jsonParse t with
    | none => rw [hj] at h; cases h
    | some j =>
      simp only [hj] at h
      cases hd : decodeNode j with
      | error e => rw [hd] at h; cases h
      | ok w =>
        rw [hd] at h
        simp only [Except.bind] at h
        cases hn : isNullRoot w with
        | true => rw [hn] at h; simp at h
        | false =>
          rw [hn] at h
          simp only [Bool.false_eq_true, if_false, Except.ok.injEq] at h
          subst h
          exact cleanFields_sweep w
  · unfold JSSerialization.parse
    rw [show jsonParse
        "\x7b\"a\":\"data:undefined,\",\"b\":\x7b\"c\":\"data:undefined,\"\x7d\x7d".toList =
      some (.obj [("a".toList, .str "data:undefined,".toList),
        ("b".toList, .obj [("c".toList, .str "data:undefined,".toList)])]) from rfl]
    have hrev : reviveString "data:undefined,".toList = .ok .sentinel := by
      simp [reviveString, isToken, splitOn, parseDataURL]
    have hds : decodeNode (.str "data:undefined,".toList) = .ok .sentinel := by
      simp only [decodeNode]
      exact hrev
    simp only [decodeNode_obj, List.mapM_cons, List.mapM_nil, hds]
    simp [sweep_obj, isSentinel, isNullRoot, sweep, Bind.bind, Except.bind, Pure.pure,
      Except.pure]

theorem C8_sweep_completeness_witness :
    cleanFields (.obj [("a".toList, .undef),
      ("b".toList, .obj [("c".toList, .undef)])]) = true :=
  C8_sweep_completeness.1 _ _ C8_sweep_completeness.2

theorem digitChar_isDigit (d : Nat) (h : d < 10) :
    (Nat.digitChar d).isDigit = true := by
  interval_cases d <;> decide

theorem digitChar_toNat (d : Nat) (h : d < 10) :
    (Nat.digitChar d).toNat = 48 + d := by
  interval_cases d <;> decide

theorem hexVal_digitChar (d : Nat) (h : d < 16) :
    hexVal (Nat.digitChar d) = d ∧ isHexDigitChar (Nat.digitChar d) = true := by
  interval_cases d <;> constructor <;> decide

theorem natToDigits_ne_nil (n : Nat) : natToDigits n ≠ [] := by
  unfold natToDigits
  split
  · simp
  · simp

theorem natToDigits_all_digits (n : Nat) :
    ∀ c ∈ natToDigits n, c.isDigit = true := by
  induction n using natToDigits.induct with
  | case1 n h =>
    unfold natToDigits
    rw [dif_pos h]
    intro c hc
    rw [List.mem_singleton] at hc
    subst hc
    exact digitChar_isDigit n h
  | case2 n h ih =>
    unfold natToDigits
    rw [dif_neg h]
    intro c hc
    rcases List.mem_append.mp hc with h1 | h1
    · exact ih c h1
    · rw [List.mem_singleton] at h1
      subst h1
      exact digitChar_isDigit _ (Nat.mod_lt _ (by omega))

theorem natToDigits_foldl (n a : Nat) :
    (natToDigits n).foldl (fun a c => 10 * a + (c.toNat - 48)) a =
      a * 10 ^ (natToDigits n).length + n := by
  induction n using natToDigits.induct generalizing a with
  | case1 n h =>
    unfold natToDigits
    rw [dif_pos h]
    simp [digitChar_toNat n h]
    omega
  | case2 n h ih =>
    unfold natToDigits
    rw [dif_neg h]
    rw [List.foldl_append, ih]
    simp only [List.foldl_cons, List.foldl_nil, List.length_append,
      List.length_singleton]
    rw [digitChar_toNat _ (Nat.mod_lt _ (by omega))]
    rw [pow_succ]
    have : (10 * (a * 10 ^ (natToDigits (n / 10)).length + n / 10) + (48 + n % 10 - 48)) =
        a * (10 ^ (natToDigits (n / 10)).length * 10) + (10 * (n / 10) + n % 10) := by
      ring_nf
      omega
    rw [this, Nat.div_add_mod]

theorem natToHex_all_hex (n : Nat) :
    ∀ c ∈ natToHex n, isHexDigitChar c = true := by
  induction n using natToHex.induct with
  | case1 n h =>
    unfold natToHex
    rw [dif_pos h]
    intro c hc
    rw [List.mem_singleton] at hc
    subst hc
    exact (hexVal_digitChar n h).2
  | case2 n h ih =>
    unfold natToHex
    rw [dif_neg h]
    intro c hc
    rcases List.mem_append.mp hc with h1 | h1
    · exact ih c h1
    · rw [List.mem_singleton] at h1
      subst h1
      exact (hexVal_digitChar _ (Nat.mod_lt _ (by omega))).2

theorem natToHex_foldl (n : Nat) :
    ∀ a, (natToHex n).foldl (fun a c => 16 * a + hexVal c) a =
      a * 16 ^ (natToHex n).length + n := by
  induction n using natToHex.induct with
  | case1 n h =>
    intro a
    unfold natToHex
    rw [dif_pos h]
    simp [(hexVal_digitChar n h).1]
    omega
  | case2 n h ih =>
    intro a
    unfold natToHex
    rw [dif_neg h]
    rw [List.foldl_append, ih]
    simp only [List.foldl_cons, List.foldl_nil, List.length_append,
      List.length_singleton]
    rw [(hexVal_digitChar _ (Nat.mod_lt _ (by omega))).1]
    rw [pow_succ]
    have heq : (16 * (a * 16 ^ (natToHex (n / 16)).length + n / 16) + n % 16) =
        a * (16 ^ (natToHex (n / 16)).length * 16) + (16 * (n / 16) + n % 16) := by
      ring
    rw [heq, Nat.div_add_mod]

theorem natToHex_len (k : Nat) : ∀ n, 1 ≤ k → n < 16 ^ k →
    (natToHex n).length ≤ k := by
  induction k with
  | zero => intro n h1 _; omega
  | succ k ih =>
    intro n _ h2
    unfold natToHex
    split
    · simp
    · have hk : 1 ≤ k := by
        by_contra hk0
        have : k = 0 := by omega
        subst this
        simp at h2
        omega
      have hdiv : n / 16 < 16 ^ k := by
        rw [Nat.div_lt_iff_lt_mul (by omega)]
        rw [pow_succ] at h2
        omega
      have := ih (n / 16) hk hdiv
      simp only [List.length_append, List.length_singleton]
      omega

theorem hex4_parse (n : Nat) (h : n < 65536) :
    ∃ a b c d, hex4 n = [a, b, c, d] ∧
      isHexDigitChar a = true ∧ isHexDigitChar b = true ∧
      isHexDigitChar c = true ∧ isHexDigitChar d = true ∧
      hexVal a * 4096 + hexVal b * 256 + hexVal c * 16 + hexVal d = n := by
  have hlen : (natToHex n).length ≤ 4 := natToHex_len 4 n (by omega) (by omega)
  have hrepl : hex4 n = List.replicate (4 - (natToHex n).length) '0' ++ natToHex n := by
    unfold hex4 lastN
    have h04 : (['0', '0', '0', '0'] : JStr) = List.replicate 4 '0' := rfl
    rw [h04]
    rw [List.length_append, List.length_replicate]
    have hk : 4 + (natToHex n).length - 4 = (natToHex n).length := by omega
    rw [hk]
    rw [List.drop_append_of_le_length (by simp; omega)]
    rw [List.drop_replicate]
  have hfold : (hex4 n).foldl (fun a c => 16 * a + hexVal c) 0 = n := by
    rw [hrepl, List.foldl_append]
    have hz : ∀ (m : Nat), (List.replicate m '0').foldl
        (fun a c => 16 * a + hexVal c) 0 = 0 := by
      intro m
      induction m with
      | zero => rfl
      | succ m ih => simpa [List.replicate_succ, hexVal] using ih
    rw [hz]
    rw [natToHex_foldl]
    simp
  have hall : ∀ c ∈ hex4 n, isHexDigitChar c = true := by
    rw [hrepl]
    intro c hc
    rcases List.mem_append.mp hc with h1 | h1
    · rw [List.eq_of_mem_replicate h1]
      decide
    · exact natToHex_all_hex n c h1
  have hlen4 : (hex4 n).length = 4 := by
    rw [hrepl, List.length_append, List.length_replicate]
    omega
  match hx : hex4 n with
  | [a, b, c, d] =>
    rw [hx] at hfold hall
    refine ⟨a, b, c, d, rfl, hall a (by simp), hall b (by simp),
      hall c (by simp), hall d (by simp), ?_⟩
    simp only [List.foldl_cons, List.foldl_nil] at hfold
    omega
  | [] => rw [hx] at hlen4; simp at hlen4
  | [_] => rw [hx] at hlen4; simp at hlen4
  | [_, _] => rw [hx] at hlen4; simp at hlen4
  | [_, _, _] => rw [hx] at hlen4; simp at hlen4
  | _ :: _ :: _ :: _ :: _ :: _ => rw [hx] at hlen4; simp at hlen4

theorem char_eq_of_toNat {c : Char} {n : Nat} (h : c.toNat = n) : c = Char.ofNat n := by
  rw [← h, Char.ofNat_toNat]

theorem not_escapable_ne (c : Char) (h : isEscapable c = false) :
    c ≠ '"' ∧ c ≠ '\\' := by
  constructor
  · intro hq; subst hq; simp [isEscapable] at h
  · intro hb; subst hb; simp [isEscapable] at h

theorem escapable_lt (c : Char) (h : isEscapable c = true) : c.toNat < 65536 := by
  simp only [isEscapable, Bool.or_eq_true, Bool.and_eq_true, decide_eq_true_eq] at h
  omega

/-- `quote` always equals the per-character escaping form (the fast
path is an optimisation with identical output). -/
theorem quote_eq_flatMap (s : JStr) :
    quote s = '"' :: (s.flatMap fun a =>
      if isEscapable a then escapeChar a else [a]) ++ ['"'] := by
  unfold quote
  cases ha : s.any isEscapable
  · simp only [Bool.false_eq_true, if_false]
    have : (s.flatMap fun a => if isEscapable a then escapeChar a else [a]) = s := by
      rw [List.any_eq_false] at ha
      induction s with
      | nil => rfl
      | cons c cs ih =>
        rw [List.flatMap_cons, if_neg (by simp [ha c (List.mem_cons_self c cs)])]
        rw [ih fun x hx => ha x (List.mem_cons_of_mem c hx)]
        rfl
    rw [this]
    rfl
  · simp

theorem psb_step_plain (ch : Char) (hq : ch ≠ '"') (hb : ch ≠ '\\') (Y : JStr) :
    parseStringBody (ch :: Y) = (parseStringBody Y).map fun p => (ch :: p.1, p.2) := by
  rw [parseStringBody.eq_def]
  simp [hq, hb]

theorem psb_step_esc_b (Y : JStr) :
    parseStringBody ('\\' :: 'b' :: Y) =
      (parseStringBody Y).map fun p => (Char.ofNat 8 :: p.1, p.2) := by
  rw [parseStringBody.eq_def]
  simp

theorem psb_step_esc_t (Y : JStr) :
    parseStringBody ('\\' :: 't' :: Y) =
      (parseStringBody Y).map fun p => (Char.ofNat 9 :: p.1, p.2) := by
  rw [parseStringBody.eq_def]
  simp

theorem psb_step_esc_n (Y : JStr) :
    parseStringBody ('\\' :: 'n' :: Y) =
      (parseStringBody Y).map fun p => (Char.ofNat 10 :: p.1, p.2) := by
  rw [parseStringBody.eq_def]
  simp

theorem psb_step_esc_f (Y : JStr) :
    parseStringBody ('\\' :: 'f' :: Y) =
      (parseStringBody Y).map fun p => (Char.ofNat 12 :: p.1, p.2) := by
  rw [parseStringBody.eq_def]
  simp

theorem psb_step_esc_r (Y : JStr) :
    parseStringBody ('\\' :: 'r' :: Y) =
      (parseStringBody Y).map fun p => (Char.ofNat 13 :: p.1, p.2) := by
  rw [parseStringBody.eq_def]
  simp

theorem psb_step_esc_quote (Y : JStr) :
    parseStringBody ('\\' :: '"' :: Y) =
      (parseStringBody Y).map fun p => ('"' :: p.1, p.2) := by
  rw [parseStringBody.eq_def]
  simp

theorem psb_step_esc_back (Y : JStr) :
    parseStringBody ('\\' :: '\\' :: Y) =
      (parseStringBody Y).map fun p => ('\\' :: p.1, p.2) := by
  rw [parseStringBody.eq_def]
  simp

theorem psb_step_esc_u (a b c d : Char) (ha : isHexDigitChar a = true)
    (hb : isHexDigitChar b = true) (hc : isHexDigitChar c = true)
    (hd : isHexDigitChar d = true) (Y : JStr) :
    parseStringBody ('\\' :: 'u' :: a :: b :: c :: d :: Y) =
      (parseStringBody Y).map fun p =>
        (Char.ofNat (hexVal a * 4096 + hexVal b * 256 + hexVal c * 16 + hexVal d)
          :: p.1, p.2) := by
  rw [parseStringBody.eq_def]
  simp [ha, hb, hc, hd]

theorem psb_step_close (Y : JStr) :
    parseStringBody ('"' :: Y) = some ([], Y) := by
  rw [parseStringBody.eq_def]
  simp

theorem parseStringBody_inv (s : JStr) : ∀ (rest : JStr),
    parseStringBody ((s.flatMap fun a =>
      if isEscapable a then escapeChar a else [a]) ++ '"' :: rest) = some (s, rest) := by
  induction s with
  | nil =>
    intro rest
    simp only [List.flatMap_nil, List.nil_append]
    exact psb_step_close rest
  | cons c cs ih =>
    intro rest
    simp only [List.flatMap_cons, List.append_assoc]
    by_cases hc : isEscapable c
    · rw [if_pos hc]
      cases hm : meta c with
      | some m =>
        have he : escapeChar c = m := by simp [escapeChar, hm]
        rw [he]
        have hthis := hm
        unfold meta at hthis
        split_ifs at hthis with h1 h2 h3 h4 h5 h6 h7
        · cases hthis
          simp only [List.cons_append, List.nil_append]
          rw [psb_step_esc_b, ih rest, char_eq_of_toNat h1]
          rfl
        · cases hthis
          simp only [List.cons_append, List.nil_append]
          rw [psb_step_esc_t, ih rest, char_eq_of_toNat h2]
          rfl
        · cases hthis
          simp only [List.cons_append, List.nil_append]
          rw [psb_step_esc_n, ih rest, char_eq_of_toNat h3]
          rfl
        · cases hthis
          simp only [List.cons_append, List.nil_append]
          rw [psb_step_esc_f, ih rest, char_eq_of_toNat h4]
          rfl
        · cases hthis
          simp only [List.cons_append, List.nil_append]
          rw [psb_step_esc_r, ih rest, char_eq_of_toNat h5]
          rfl
        · cases hthis
          subst h6
          simp only [List.cons_append, List.nil_append]
          rw [psb_step_esc_quote, ih rest]
          rfl
        · cases hthis
          subst h7
          simp only [List.cons_append, List.nil_append]
          rw [psb_step_esc_back, ih rest]
          rfl
      | none =>
        have hlt := escapable_lt c hc
        obtain ⟨a, b, c4, d, hx, ha, hb4, hc4, hd4, hval⟩ := hex4_parse c.toNat hlt
        have he : escapeChar c = '\\' :: 'u' :: [a, b, c4, d] := by
          simp [escapeChar, hm, hx]
        rw [he]
        simp only [List.cons_append, List.nil_append]
        rw [psb_step_esc_u a b c4 d ha hb4 hc4 hd4, ih rest]
        simp only [Option.map_some', hval, Char.ofNat_toNat]
    · rw [if_neg hc]
      obtain ⟨hq, hb⟩ := not_escapable_ne c (by simpa using hc)
      simp only [List.singleton_append]
      rw [psb_step_plain c hq hb, ih rest]
      rfl

/-- The character after a rendered value must not extend a number
literal; every delimiter the renderer emits satisfies this. -/
def noDigitStart : JStr → Bool
  | [] => true
  | c :: _ => !c.isDigit

theorem takeWhile_append_all {p : Char → Bool} (l1 l2 : JStr)
    (h1 : ∀ c ∈ l1, p c = true)
    (h2 : ∀ c, l2.head? = some c → p c = false) :
    (l1 ++ l2).takeWhile p = l1 ∧ (l1 ++ l2).dropWhile p = l2 := by
  induction l1 with
  | nil =>
    cases l2 with
    | nil => exact ⟨rfl, rfl⟩
    | cons c r =>
      have := h2 c rfl
      simp [List.takeWhile, List.dropWhile, this]
  | cons c r ih =>
    have hc : p c = true := h1 c (List.mem_cons_self c r)
    obtain ⟨ht, hd⟩ := ih fun x hx => h1 x (List.mem_cons_of_mem c hx)
    simp only [List.cons_append, List.takeWhile, List.dropWhile, hc, List.append_eq,
      ht, hd]
    simp

theorem parseNatTok_inv (n : Nat) (rest : JStr) (hrest : noDigitStart rest = true) :
    parseNatTok (natToDigits n ++ rest) = some (n, rest) := by
  have h2 : ∀ c, rest.head? = some c → Char.isDigit c = false := by
    intro c hcx
    cases rest with
    | nil => cases hcx
    | cons x r =>
      cases hcx
      simpa [noDigitStart] using hrest
  obtain ⟨ht, hd⟩ := takeWhile_append_all (natToDigits n) rest
    (natToDigits_all_digits n) h2
  obtain ⟨d, ds, hds⟩ := List.exists_cons_of_ne_nil (natToDigits_ne_nil n)
  unfold parseNatTok
  rw [ht, hd, hds]
  have hfold := natToDigits_foldl n 0
  simp only [Nat.zero_mul, Nat.zero_add] at hfold
  simp [← hds, hfold]

theorem jpv_null (n : Nat) (rest : JStr) :
    jsonParseVal (n + 1) ('n' :: 'u' :: 'l' :: 'l' :: rest) = some (.null, rest) := rfl

theorem jpv_true (n : Nat) (rest : JStr) :
    jsonParseVal (n + 1) ('t' :: 'r' :: 'u' :: 'e' :: rest) = some (.bool true, rest) := rfl

theorem jpv_false (n : Nat) (rest : JStr) :
    jsonParseVal (n + 1) ('f' :: 'a' :: 'l' :: 's' :: 'e' :: rest) =
      some (.bool false, rest) := rfl

theorem jpv_string (n : Nat) (rest : JStr) :
    jsonParseVal (n + 1) ('"' :: rest) =
      (parseStringBody rest).map fun p => (.str p.1, p.2) := rfl

theorem jpv_neg (n : Nat) (rest : JStr) :
    jsonParseVal (n + 1) ('-' :: rest) =
      (parseNatTok rest).map fun p => (.num (-(p.1 : Int)), p.2) := rfl

theorem jpv_arr_empty (n : Nat) (rest : JStr) :
    jsonParseVal (n + 1) ('[' :: ']' :: rest) = some (.arr [], rest) := rfl

theorem jpv_obj_empty (n : Nat) (rest : JStr) :
    jsonParseVal (n + 1) (lbrace :: rbrace :: rest) = some (.obj [], rest) := rfl

theorem jpv_digit (n : Nat) (c : Char) (rest : JStr) (h : c.isDigit = true) :
    jsonParseVal (n + 1) (c :: rest) =
      (parseNatTok (c :: rest)).map fun p => (.num ((p.1 : Nat) : Int), p.2) := by
  have hq : c ≠ '"' := by rintro rfl; simp at h
  have ht : c ≠ 't' := by rintro rfl; simp at h
  have hf : c ≠ 'f' := by rintro rfl; simp at h
  have hn : c ≠ 'n' := by rintro rfl; simp at h
  have hm : c ≠ '-' := by rintro rfl; simp at h
  simp [jsonParseVal, hq, ht, hf, hn, hm, h]

theorem jpv_arr_go (n : Nat) (x : Char) (X : JStr) (h : x ≠ ']') :
    jsonParseVal (n + 1) ('[' :: x :: X) =
      (jsonParseItems n (x :: X)).map fun p => (.arr p.1, p.2) := by
  simp [jsonParseVal, h]

theorem jpv_obj_go (n : Nat) (x : Char) (X : JStr) (h : x ≠ rbrace) :
    jsonParseVal (n + 1) (lbrace :: x :: X) =
      (jsonParseFields n (x :: X)).map fun p => (.obj p.1, p.2) := by
  simp [jsonParseVal, h, lbrace, rbrace]
  intro hx
  exact absurd hx h

theorem jpi_step (n : Nat) (s : JStr) :
    jsonParseItems (n + 1) s =
      match jsonParseVal n s with
      | some (j, r) =>
        match r with
        | ',' :: r1 => (jsonParseItems n r1).map fun p => (j :: p.1, p.2)
        | ']' :: r1 => some ([j], r1)
        | _ => none
      | none => none := rfl

theorem jpf_step (n : Nat) (s : JStr) :
    jsonParseFields (n + 1) s =
      match s with
      | '"' :: s1 =>
        match parseStringBody s1 with
        | some (k, r) =>
          match r with
          | ':' :: r1 =>
            match jsonParseVal n r1 with
            | some (j, r2) =>
              match r2 with
              | ',' :: r3 => (jsonParseFields n r3).map fun p => ((k, j) :: p.1, p.2)
              | r3h :: r3t => if r3h = rbrace then some ([(k, j)], r3t) else none
              | [] => none
            | none => none
          | _ => none
        | none => none
      | _ => none := rfl

theorem intercalate_singleton (s x : JStr) : List.intercalate s [x] = x := by
  simp [List.intercalate, List.intersperse]

theorem intercalate_cons2 (s x y : JStr) (r : List JStr) :
    List.intercalate s (x :: y :: r) = x ++ s ++ List.intercalate s (y :: r) := by
  simp [List.intercalate, List.intersperse]

theorem digit_ne_delims (d : Char) (h : d.isDigit = true) :
    d ≠ ']' ∧ d ≠ rbrace ∧ d ≠ ',' ∧ d ≠ ':' ∧ d ≠ '"' := by
  refine ⟨?_, ?_, ?_, ?_, ?_⟩ <;> (rintro rfl; revert h; decide)

theorem jsonRender_head (j : Json) :
    ∃ c t, jsonRender j = c :: t ∧ c ≠ ']' ∧ c ≠ rbrace := by
  cases j with
  | null => exact ⟨'n', ['u', 'l', 'l'], by simp [jsonRender], by decide, by decide⟩
  | bool b =>
    cases b
    · exact ⟨'f', ['a', 'l', 's', 'e'], by simp [jsonRender], by decide, by decide⟩
    · exact ⟨'t', ['r', 'u', 'e'], by simp [jsonRender], by decide, by decide⟩
  | num i =>
    by_cases hi : i < 0
    · refine ⟨'-', natToDigits i.natAbs, ?_, by decide, by decide⟩
      simp [jsonRender, jsIntToString, hi]
    · obtain ⟨d, ds, hds⟩ := List.exists_cons_of_ne_nil (natToDigits_ne_nil i.toNat)
      have hd : d.isDigit = true :=
        natToDigits_all_digits i.toNat d (hds ▸ List.mem_cons_self d ds)
      obtain ⟨h1, h2, _, _, _⟩ := digit_ne_delims d hd
      refine ⟨d, ds, ?_, h1, h2⟩
      simp [jsonRender, jsIntToString, hi, hds]
  | str s =>
    refine ⟨'"', (s.flatMap fun a => if isEscapable a then escapeChar a else [a]) ++ ['"'],
      ?_, by decide, by decide⟩
    rw [show jsonRender (.str s) = quote s from by simp [jsonRender], quote_eq_flatMap]
    simp
  | arr l =>
    refine ⟨'[', List.intercalate [','] (l.map jsonRender) ++ [']'], ?_, by decide, by decide⟩
    rw [jsonRender_arr]
    simp
  | obj f =>
    refine ⟨lbrace, List.intercalate [',']
      (f.map fun kv => quote kv.1 ++ ':' :: jsonRender kv.2) ++ [rbrace],
      ?_, by decide, by decide⟩
    rw [jsonRender_obj]
    simp

theorem jsonRender_len_pos (j : Json) : 1 ≤ (jsonRender j).length := by
  obtain ⟨c, t, hct, _, _⟩ := jsonRender_head j
  rw [hct]
  simp

theorem quote_len_pos (s : JStr) : 1 ≤ (quote s).length := by
  rw [quote_eq_flatMap]
  simp

theorem jsonParse_render_inv : ∀ (fuel : Nat),
    (∀ (j : Json) (rest : JStr), (jsonRender j).length < fuel →
      noDigitStart rest = true →
      jsonParseVal fuel (jsonRender j ++ rest) = some (j, rest)) ∧
    (∀ (l : List Json) (rest : JStr), l ≠ [] →
      (List.intercalate [','] (l.map jsonRender)).length + 1 < fuel →
      jsonParseItems fuel
        (List.intercalate [','] (l.map jsonRender) ++ ']' :: rest) = some (l, rest)) ∧
    (∀ (f : List (JStr × Json)) (rest : JStr), f ≠ [] →
      (List.intercalate [','] (f.map fun kv =>
        quote kv.1 ++ ':' :: jsonRender kv.2)).length + 1 < fuel →
      jsonParseFields fuel (List.intercalate [','] (f.map fun kv =>
        quote kv.1 ++ ':' :: jsonRender kv.2) ++ rbrace :: rest) = some (f, rest)) := by
  intro fuel
  induction fuel using Nat.strong_induction_on with
  | h fuel IH =>
  cases fuel with
  | zero =>
    refine ⟨fun j rest hlen _ => by omega, fun l rest _ hlen => by omega,
      fun f rest _ hlen => by omega⟩
  | succ n =>
    obtain ⟨IHval, IHitems, IHfields⟩ := IH n (Nat.lt_succ_self n)
    refine ⟨?_, ?_, ?_⟩
    · -- values
      intro j rest hlen hrest
      cases j with
      | null =>
        rw [show jsonRender Json.null = ['n', 'u', 'l', 'l'] from by simp [jsonRender]]
        simp only [List.cons_append, List.nil_append]
        exact jpv_null n rest
      | bool b =>
        cases b
        · rw [show jsonRender (Json.bool false) = ['f', 'a', 'l', 's', 'e'] from by
            simp [jsonRender]]
          simp only [List.cons_append, List.nil_append]
          exact jpv_false n rest
        · rw [show jsonRender (Json.bool true) = ['t', 'r', 'u', 'e'] from by
            simp [jsonRender]]
          simp only [List.cons_append, List.nil_append]
          exact jpv_true n rest
      | num i =>
        by_cases hi : i < 0
        · rw [show jsonRender (Json.num i) = '-' :: natToDigits i.natAbs from by
            simp [jsonRender, jsIntToString, hi]]
          simp only [List.cons_append]
          rw [jpv_neg, parseNatTok_inv i.natAbs rest hrest]
          simp only [Option.map_some']
          have hcast : (-(i.natAbs : Int)) = i := by omega
          rw [hcast]
        · obtain ⟨d, ds, hds⟩ := List.exists_cons_of_ne_nil (natToDigits_ne_nil i.toNat)
          have hdd : d.isDigit = true :=
            natToDigits_all_digits i.toNat d (hds ▸ List.mem_cons_self d ds)
          rw [show jsonRender (Json.num i) = natToDigits i.toNat from by
            simp [jsonRender, jsIntToString, hi], hds]
          simp only [List.cons_append]
          rw [jpv_digit n d _ hdd]
          rw [show d :: (ds ++ rest) = (d :: ds) ++ rest from rfl, ← hds]
          rw [parseNatTok_inv i.toNat rest hrest]
          simp only [Option.map_some']
          have hcast : ((i.toNat : Nat) : Int) = i := by omega
          rw [hcast]
      | str s =>
        rw [show jsonRender (Json.str s) = quote s from by simp [jsonRender],
          quote_eq_flatMap]
        rw [show ('"' :: (s.flatMap fun a =>
            if isEscapable a then escapeChar a else [a]) ++ ['"']) ++ rest =
          '"' :: ((s.flatMap fun a =>
            if isEscapable a then escapeChar a else [a]) ++ '"' :: rest) from by simp]
        rw [jpv_string, parseStringBody_inv]
        rfl
      | arr l =>
        cases l with
        | nil =>
          rw [show jsonRender (Json.arr []) = ['[', ']'] from by
            rw [jsonRender_arr]; rfl]
          simp only [List.cons_append, List.nil_append]
          exact jpv_arr_empty n rest
        | cons j0 l' =>
          rw [jsonRender_arr]
          have hlen' : (List.intercalate [',']
              ((j0 :: l').map jsonRender)).length + 1 < n := by
            rw [jsonRender_arr] at hlen
            simp only [List.length_cons, List.length_append,
              List.length_singleton] at hlen
            omega
          obtain ⟨c, t, hct, hc1, _⟩ := jsonRender_head j0
          have hIstruct : ∃ X, List.intercalate [',']
              ((j0 :: l').map jsonRender) = c :: X := by
            cases l' with
            | nil =>
              refine ⟨t, ?_⟩
              rw [List.map_singleton, intercalate_singleton, hct]
            | cons j1 l'' =>
              rw [List.map_cons, List.map_cons, intercalate_cons2, hct]
              exact ⟨t ++ [','] ++ List.intercalate [',']
                (jsonRender j1 :: l''.map jsonRender), by simp⟩
          obtain ⟨X, hX⟩ := hIstruct
          rw [hX]
          simp only [List.cons_append, List.append_assoc, List.singleton_append,
            List.nil_append]
          rw [jpv_arr_go n c _ hc1]
          rw [show c :: (X ++ ']' :: rest) = (c :: X) ++ ']' :: rest from rfl, ← hX]
          rw [IHitems (j0 :: l') rest (by simp) hlen']
          rfl
      | obj f =>
        cases f with
        | nil =>
          rw [show jsonRender (Json.obj []) = [lbrace, rbrace] from by
            rw [jsonRender_obj]; rfl]
          simp only [List.cons_append, List.nil_append]
          exact jpv_obj_empty n rest
        | cons kv0 f' =>
          rw [jsonRender_obj]
          have hlen' : (List.intercalate [','] ((kv0 :: f').map fun kv =>
              quote kv.1 ++ ':' :: jsonRender kv.2)).length + 1 < n := by
            rw [jsonRender_obj] at hlen
            simp only [List.length_cons, List.length_append,
              List.length_singleton] at hlen
            omega
          have hIstruct : ∃ X, List.intercalate [','] ((kv0 :: f').map fun kv =>
              quote kv.1 ++ ':' :: jsonRender kv.2) = '"' :: X := by
            have hq : ∃ B, quote kv0.1 = '"' :: B := by
              rw [quote_eq_flatMap]
              exact ⟨_, rfl⟩
            obtain ⟨B, hB⟩ := hq
            cases f' with
            | nil =>
              rw [List.map_singleton, intercalate_singleton, hB]
              exact ⟨B ++ ':' :: jsonRender kv0.2, by simp⟩
            | cons kv1 f'' =>
              rw [List.map_cons, List.map_cons, intercalate_cons2, hB]
              refine ⟨B ++ ':' :: jsonRender kv0.2 ++ [','] ++ List.intercalate [',']
                ((fun kv => quote kv.1 ++ ':' :: jsonRender kv.2) kv1 ::
                  f''.map fun kv => quote kv.1 ++ ':' :: jsonRender kv.2), ?_⟩
              simp
          obtain ⟨X, hX⟩ := hIstruct
          rw [hX]
          simp only [List.cons_append, List.append_assoc, List.singleton_append,
            List.nil_append]
          rw [jpv_obj_go n '"' _ (by decide)]
          rw [show '"' :: (X ++ rbrace :: rest) = ('"' :: X) ++ rbrace :: rest from rfl,
            ← hX]
          rw [IHfields (kv0 :: f') rest (by simp) hlen']
          rfl
    · -- item lists
      intro l rest hne hlen
      obtain ⟨j0, l', rfl⟩ := List.exists_cons_of_ne_nil hne
      cases l' with
      | nil =>
        rw [List.map_singleton, intercalate_singleton] at hlen ⊢
        rw [jpi_step]
        rw [IHval j0 (']' :: rest) (by omega) (by simp [noDigitStart])]
        simp
      | cons j1 l'' =>
        rw [List.map_cons, List.map_cons, intercalate_cons2] at hlen ⊢
        have hp0 := jsonRender_len_pos j0
        have hp1 := jsonRender_len_pos j1
        rw [show (jsonRender j0 ++ [','] ++ List.intercalate [',']
            (jsonRender j1 :: l''.map jsonRender)) ++ ']' :: rest =
          jsonRender j0 ++ ',' :: (List.intercalate [',']
            (jsonRender j1 :: l''.map jsonRender) ++ ']' :: rest) from by simp]
        rw [jpi_step]
        rw [IHval j0 (',' :: (List.intercalate [',']
            (jsonRender j1 :: l''.map jsonRender) ++ ']' :: rest))
          (by simp only [List.length_append, List.length_singleton] at hlen; omega)
          (by simp [noDigitStart])]
        have hitems := IHitems (j1 :: l'') rest (by simp) (by
          simp only [List.length_append, List.length_singleton] at hlen
          simp only [List.map_cons]
          omega)
        simp only [List.map_cons] at hitems
        simp [hitems]
    · -- field lists
      intro f rest hne hlen
      obtain ⟨kv0, f', rfl⟩ := List.exists_cons_of_ne_nil hne
      obtain ⟨k0, v0⟩ := kv0
      have hqp := quote_len_pos k0
      have hvp := jsonRender_len_pos v0
      cases f' with
      | nil =>
        rw [List.map_singleton, intercalate_singleton] at hlen ⊢
        rw [show (quote (k0, v0).1 ++ ':' :: jsonRender (k0, v0).2) ++ rbrace :: rest =
          quote k0 ++ ':' :: (jsonRender v0 ++ rbrace :: rest) from by simp]
        rw [quote_eq_flatMap]
        rw [show ('"' :: (k0.flatMap fun a =>
            if isEscapable a then escapeChar a else [a]) ++ ['"']) ++
              ':' :: (jsonRender v0 ++ rbrace :: rest) =
          '"' :: ((k0.flatMap fun a =>
            if isEscapable a then escapeChar a else [a]) ++
              '"' :: (':' :: (jsonRender v0 ++ rbrace :: rest))) from by simp]
        rw [jpf_step]
        simp only [parseStringBody_inv]
        have hv := IHval v0 (rbrace :: rest)
          (by simp only [List.length_append, List.length_cons] at hlen; omega)
          (by simp [noDigitStart, rbrace, Char.isDigit])
        simp only [hv]
        simp [rbrace]
      | cons kv1 f'' =>
        rw [List.map_cons, List.map_cons, intercalate_cons2] at hlen ⊢
        rw [show ((quote (k0, v0).1 ++ ':' :: jsonRender (k0, v0).2) ++ [','] ++
            List.intercalate [','] ((fun kv => quote kv.1 ++ ':' :: jsonRender kv.2) kv1
              :: f''.map fun kv => quote kv.1 ++ ':' :: jsonRender kv.2)) ++
            rbrace :: rest =
          quote k0 ++ ':' :: (jsonRender v0 ++ ',' :: (List.intercalate [',']
            ((fun kv => quote kv.1 ++ ':' :: jsonRender kv.2) kv1
              :: f''.map fun kv => quote kv.1 ++ ':' :: jsonRender kv.2) ++
            rbrace :: rest)) from by simp]
        rw [quote_eq_flatMap]
        rw [show ('"' :: (k0.flatMap fun a =>
            if isEscapable a then escapeChar a else [a]) ++ ['"']) ++
              ':' :: (jsonRender v0 ++ ',' :: (List.intercalate [',']
                ((fun kv => quote kv.1 ++ ':' :: jsonRender kv.2) kv1
                  :: f''.map fun kv => quote kv.1 ++ ':' :: jsonRender kv.2) ++
                rbrace :: rest)) =
          '"' :: ((k0.flatMap fun a =>
            if isEscapable a then escapeChar a else [a]) ++
              '"' :: (':' :: (jsonRender v0 ++ ',' :: (List.intercalate [',']
                ((fun kv => quote kv.1 ++ ':' :: jsonRender kv.2) kv1
                  :: f''.map fun kv => quote kv.1 ++ ':' :: jsonRender kv.2) ++
                rbrace :: rest)))) from by simp]
        rw [jpf_step]
        simp only [parseStringBody_inv]
        have hv := IHval v0 (',' :: (List.intercalate [',']
            ((fun kv => quote kv.1 ++ ':' :: jsonRender kv.2) kv1
              :: f''.map fun kv => quote kv.1 ++ ':' :: jsonRender kv.2) ++
            rbrace :: rest))
          (by simp only [List.length_append, List.length_cons] at hlen; omega)
          (by simp [noDigitStart])
        simp only [hv]
        have hfields := IHfields (kv1 :: f'') rest (by simp) (by
          simp only [List.length_append, List.length_cons] at hlen
          simp only [List.map_cons]
          omega)
        simp only [List.map_cons] at hfields
        simp [hfields]

theorem jsonParse_jsonRender (j : Json) : jsonParse (jsonRender j) = some j := by
  unfold jsonParse
  have h := (jsonParse_render_inv ((jsonRender j).length + 1)).1 j []
    (by omega) rfl
  rw [List.append_nil] at h
  rw [h]

theorem str_elems_map (l : List JSV)
    (h : ∀ e ∈ l, str .noRep [] [] e = some (jsonRender (encodeJson e))) :
    (l.map fun e => (str .noRep [] [] e).getD ("null".toList)) =
      l.map fun e => jsonRender (encodeJson e) :=
  List.map_congr_left fun e he => by rw [h e he]; rfl

theorem str_fields_map (f : List (JStr × JSV))
    (h : ∀ kv ∈ f, str .noRep [] [] kv.2 = some (jsonRender (encodeJson kv.2))) :
    (f.filterMap fun kv => (str .noRep [] [] kv.2).map
      fun vt => quote kv.1 ++ [':'] ++ vt) =
    f.map fun kv => quote kv.1 ++ ':' :: jsonRender (encodeJson kv.2) := by
  induction f with
  | nil => rfl
  | cons kv f' ih =>
    rw [List.filterMap_cons, h kv (List.mem_cons_self kv f'),
      List.map_cons]
    simp only [Option.map_some']
    rw [ih fun x hx => h x (List.mem_cons_of_mem kv hx)]
    simp

/-- Under `wf`, the compact encoding a value receives from `str` is the
rendering of its host tree. -/
theorem str_eq_render (v : JSV) (h : wf v = true) :
    str .noRep [] [] v = some (jsonRender (encodeJson v)) := by
  induction v using jsvInduction with
  | hundef => simp [str, encodeJson, jsonRender]
  | hnull => simp [str, encodeJson, jsonRender]
  | hbool b => cases b <;> simp [str, encodeJson, jsonRender]
  | hnum m => cases m <;> simp [str, encodeJson, jsonRender, jnumToString, jsIntToString]
  | hstr s => simp [str, encodeJson, jsonRender]
  | hbig i => simp [str, encodeJson, jsonRender]
  | hdate t => simp [str, encodeJson, jsonRender]
  | hsent => simp [wf] at h
  | huns => simp [wf] at h
  | harr l ihl =>
    rw [wf_arr, List.all_eq_true] at h
    rw [str_arr_eq, encodeJson_arr, jsonRender_arr]
    simp only [List.nil_append]
    rw [str_elems_map l fun e he => ihl e he (h e he)]
    cases l with
    | nil => simp [List.intercalate, List.intersperse]
    | cons e l' => simp [List.map_map, Function.comp_def]
  | hobj f ihf =>
    rw [wf_obj, Bool.and_eq_true, List.all_eq_true] at h
    rw [str_obj_noRep_eq, encodeJson_obj, jsonRender_obj]
    simp only [List.nil_append, List.isEmpty_nil, if_true]
    rw [str_fields_map f fun kv hkv => ihf kv hkv (h.2 kv hkv)]
    cases f with
    | nil => simp [List.intercalate, List.intersperse]
    | cons kv f' => simp [List.map_map, Function.comp_def]

theorem splitOn_no_sep (sep : Char) (l : JStr) (h : sep ∉ l) :
    splitOn sep l = [l] := by
  induction l with
  | nil => rfl
  | cons c r ih =>
    have hc : c ≠ sep := fun heq => h (heq ▸ List.mem_cons_self c r)
    have hr : sep ∉ r := fun hm => h (List.mem_cons_of_mem c hm)
    simp only [splitOn, if_neg hc, ih hr]

theorem parseDataURL_toDataURL (t val : JStr) (ht : ',' ∉ t) (hv : ',' ∉ val) :
    parseDataURL (toDataURL t val) =
      ⟨some (t.takeWhile (· ≠ ':')), some val⟩ := by
  have hpre : ',' ∉ "data:".toList ++ t := by
    intro hm
    rcases List.mem_append.mp hm with h1 | h1
    · simp at h1
    · exact ht h1
  have hsplit : splitOn ',' (toDataURL t val) = ["data:".toList ++ t, val] := by
    rw [show toDataURL t val = ("data:".toList ++ t) ++ ',' :: val from by
      simp [toDataURL]]
    rw [splitOn_append_first ',' _ _ hpre, splitOn_no_sep ',' val hv]
  obtain ⟨ss, hss⟩ := splitOn_cons_head ':' t
  have htype : splitOn ':' ("data:".toList ++ t) =
      "data".toList :: t.takeWhile (· ≠ ':') :: ss := by
    rw [show ("data:".toList ++ t : JStr) = "data".toList ++ ':' :: t from by simp]
    rw [splitOn_append_first ':' _ _ (by simp), hss]
  simp only [parseDataURL, hsplit, List.headD_cons]
  rw [htype]
  simp

theorem isToken_toDataURL (t val : JStr) (hne0 : t ≠ []) (ht : ',' ∉ t)
    (hv : ',' ∉ val) : isToken (toDataURL t val) = true := by
  have hpre : ',' ∉ "data:".toList ++ t := by
    intro hm
    rcases List.mem_append.mp hm with h1 | h1
    · simp at h1
    · exact ht h1
  have hsplit : splitOn ',' (toDataURL t val) = ["data:".toList ++ t, val] := by
    rw [show toDataURL t val = ("data:".toList ++ t) ++ ',' :: val from by
      simp [toDataURL]]
    rw [splitOn_append_first ',' _ _ hpre, splitOn_no_sep ',' val hv]
  unfold isToken
  rw [hsplit]
  have hlen : 5 < ("data:".toList ++ t).length := by
    simp only [List.length_append]
    have h0 : 0 < t.length := List.length_pos.mpr hne0
    rw [show ("data:".toList : JStr).length = 5 from rfl]
    omega
  have hpref : "data:".toList.isPrefixOf ("data:".toList ++ t) = true := by
    rw [List.isPrefixOf_iff_prefix]
    exact List.prefix_append _ _
  simp [hpref, hlen]
  exact List.length_pos.mpr hne0

theorem jsIntToString_chars (i : Int) :
    ∀ c ∈ jsIntToString i, c = '-' ∨ c.isDigit = true := by
  intro c hc
  unfold jsIntToString at hc
  split at hc
  · rcases List.mem_cons.mp hc with h1 | h1
    · exact Or.inl h1
    · exact Or.inr (natToDigits_all_digits _ c h1)
  · exact Or.inr (natToDigits_all_digits _ c hc)

theorem jsIntToString_no_comma_colon (i : Int) :
    ',' ∉ jsIntToString i ∧ ':' ∉ jsIntToString i := by
  constructor <;> intro hm <;> rcases jsIntToString_chars i _ hm with h | h <;>
    simp_all

theorem jsIntToString_ne_nil (i : Int) : jsIntToString i ≠ [] := by
  unfold jsIntToString
  split
  · simp
  · exact natToDigits_ne_nil _

theorem jsIntToString_ne_inf (i : Int) :
    jsIntToString i ≠ "Infinity".toList ∧ jsIntToString i ≠ "+Infinity".toList ∧
      jsIntToString i ≠ "-Infinity".toList := by
  refine ⟨?_, ?_, ?_⟩ <;> intro heq <;>
    [(have hI : 'I' ∈ jsIntToString i := by rw [heq]; decide);
     (have hI : '+' ∈ jsIntToString i := by rw [heq]; decide);
     (have hI : 'I' ∈ jsIntToString i := by rw [heq]; decide)] <;>
    rcases jsIntToString_chars i _ hI with h | h <;> simp_all

theorem parseBigInt_digits (s : JStr) (hne : s ≠ [])
    (hd : s.all Char.isDigit = true) :
    parseBigInt s =
      some ((s.foldl (fun a c => 10 * a + (c.toNat - 48)) 0 : Nat) : Int) := by
  obtain ⟨d, ds, rfl⟩ := List.exists_cons_of_ne_nil hne
  have hdd : d.isDigit = true := by
    rw [List.all_cons, Bool.and_eq_true] at hd
    exact hd.1
  have hm : d ≠ '-' := by rintro rfl; simp at hdd
  have hp : d ≠ '+' := by rintro rfl; simp at hdd
  simp [parseBigInt, hm, hp, hd]

theorem parseBigInt_jsIntToString (i : Int) :
    parseBigInt (jsIntToString i) = some i := by
  by_cases hi : i < 0
  · rw [show jsIntToString i = '-' :: natToDigits i.natAbs from by
      simp [jsIntToString, hi]]
    have hfold := natToDigits_foldl i.natAbs 0
    simp only [Nat.zero_mul, Nat.zero_add] at hfold
    simp [parseBigInt, natToDigits_ne_nil, natToDigits_all_digits i.natAbs,
      List.all_eq_true, hfold]
    refine ⟨natToDigits_all_digits _, ?_⟩
    rw [abs_of_neg hi]
    omega
  · rw [show jsIntToString i = natToDigits i.toNat from by simp [jsIntToString, hi]]
    rw [parseBigInt_digits _ (natToDigits_ne_nil _)
      (List.all_eq_true.mpr (natToDigits_all_digits i.toNat))]
    have hfold := natToDigits_foldl i.toNat 0
    simp only [Nat.zero_mul, Nat.zero_add] at hfold
    rw [hfold]
    congr 1
    omega

theorem jsNumber_jsIntToString (i : Int) : jsNumber (jsIntToString i) = .finite i := by
  obtain ⟨h1, h2, h3⟩ := jsIntToString_ne_inf i
  unfold jsNumber
  rw [if_neg (jsIntToString_ne_nil i)]
  rw [if_neg (by
    simp only [Bool.or_eq_true, decide_eq_true_eq, not_or]
    exact ⟨h1, h2⟩), if_neg h3, parseBigInt_jsIntToString]

theorem reviveString_not_token (s : JStr) (h : isToken s = false) :
    reviveString s = .ok (.str s) := by
  simp [reviveString, h]

theorem reviveString_undef :
    reviveString (toDataURL "undefined".toList []) = .ok .sentinel := rfl

theorem reviveString_nan :
    reviveString (toDataURL "number".toList "NaN".toList) = .ok (.num .nan) := rfl

theorem reviveString_inf :
    reviveString (toDataURL "number".toList "Infinity".toList) = .ok (.num .inf) := rfl

theorem reviveString_ninf :
    reviveString (toDataURL "number".toList "-Infinity".toList) =
      .ok (.num .ninf) := rfl

theorem reviveString_bigint (i : Int) :
    reviveString (toDataURL "bigint".toList (jsIntToString i)) =
      .ok (.bigint i) := by
  obtain ⟨hc, _⟩ := jsIntToString_no_comma_colon i
  have htok := isToken_toDataURL "bigint".toList (jsIntToString i)
    (by decide) (by decide) hc
  have hp := parseDataURL_toDataURL "bigint".toList (jsIntToString i) (by decide) hc
  simp only [List.takeWhile] at hp
  simp at htok hp
  simp [reviveString, htok, hp, parseBigInt_jsIntToString]

theorem reviveString_date (ms : Int) (h : ms.natAbs ≤ 8640000000000000) :
    reviveString (toDataURL "date".toList (jsIntToString ms)) =
      .ok (.date (.finite ms)) := by
  obtain ⟨hc, _⟩ := jsIntToString_no_comma_colon ms
  have htok := isToken_toDataURL "date".toList (jsIntToString ms)
    (by decide) (by decide) hc
  have hp := parseDataURL_toDataURL "date".toList (jsIntToString ms) (by decide) hc
  simp only [List.takeWhile] at hp
  simp at htok hp
  simp [reviveString, htok, hp, jsNumber_jsIntToString, mkDate, h]

theorem decode_mapM_arr (l : List JSV)
    (h : ∀ e ∈ l, decodeNode (encodeJson e) = .ok (sentinelize e)) :
    (l.map encodeJson).mapM decodeNode = .ok (l.map sentinelize) := by
  induction l with
  | nil => rfl
  | cons e l' ih =>
    rw [List.map_cons, List.map_cons, List.mapM_cons,
      h e (List.mem_cons_self e l'),
      ih fun x hx => h x (List.mem_cons_of_mem e hx)]
    rfl

theorem decode_mapM_obj (f : List (JStr × JSV))
    (h : ∀ kv ∈ f, decodeNode (encodeJson kv.2) = .ok (sentinelize kv.2)) :
    (f.map fun kv => (kv.1, encodeJson kv.2)).mapM
      (fun kv => do { let v ← decodeNode kv.2; return (kv.1, v) }) =
      .ok (f.map fun kv => (kv.1, sentinelize kv.2)) := by
  induction f with
  | nil => rfl
  | cons kv f' ih =>
    rw [List.map_cons, List.map_cons, List.mapM_cons]
    simp only [h kv (List.mem_cons_self kv f'),
      ih fun x hx => h x (List.mem_cons_of_mem kv hx)]
    rfl

/-- Decoding the encoded tree recovers the value with every absent
leaf replaced by the sentinel. -/
theorem decodeNode_encodeJson (v : JSV) (hw : wf v = true)
    (ht : tokenFree v = true) :
    decodeNode (encodeJson v) = .ok (sentinelize v) := by
  induction v using jsvInduction with
  | hundef =>
    simp only [encodeJson, sentinelize, decodeNode]
    exact reviveString_undef
  | hnull => simp [encodeJson, sentinelize, decodeNode]
  | hbool b => simp [encodeJson, sentinelize, decodeNode]
  | hnum m =>
    cases m with
    | nan =>
      simp only [encodeJson, sentinelize, decodeNode]
      exact reviveString_nan
    | inf =>
      simp only [encodeJson, sentinelize, decodeNode]
      exact reviveString_inf
    | ninf =>
      simp only [encodeJson, sentinelize, decodeNode]
      exact reviveString_ninf
    | finite i => simp [encodeJson, sentinelize, decodeNode]
  | hstr s =>
    simp only [encodeJson, sentinelize, decodeNode]
    exact reviveString_not_token s (by simpa [tokenFree] using ht)
  | hbig i =>
    simp only [encodeJson, sentinelize, decodeNode]
    exact reviveString_bigint i
  | hdate t =>
    cases t with
    | finite ms =>
      simp only [encodeJson, sentinelize, decodeNode, jnumToString]
      exact reviveString_date ms (by simpa [wf] using hw)
    | nan => simp [wf] at hw
    | inf => simp [wf] at hw
    | ninf => simp [wf] at hw
  | hsent => simp [wf] at hw
  | huns => simp [wf] at hw
  | harr l ihl =>
    rw [wf_arr, List.all_eq_true] at hw
    rw [tokenFree_arr, List.all_eq_true] at ht
    rw [encodeJson_arr, decodeNode_arr, sentinelize_arr]
    rw [decode_mapM_arr l fun e he => ihl e he (hw e he) (ht e he)]
    rfl
  | hobj f ihf =>
    rw [wf_obj, Bool.and_eq_true, List.all_eq_true] at hw
    rw [tokenFree_obj, List.all_eq_true] at ht
    rw [encodeJson_obj, decodeNode_obj, sentinelize_obj]
    rw [decode_mapM_obj f fun kv hkv => ihf kv hkv (hw.2 kv hkv) (ht kv hkv)]
    rfl

theorem isSentinel_sentinelize (v : JSV) :
    isSentinel (sentinelize v) = true ↔ (v = .undef ∨ v = .sentinel) := by
  cases v <;> simp [sentinelize, isSentinel]

theorem isNullRoot_sentinelize (v : JSV) (h : v ≠ .jsNull) :
    isNullRoot (sentinelize v) = false := by
  cases v <;> simp [sentinelize, isNullRoot] at h ⊢

theorem sweep_sentinelize (v : JSV) (hw : wf v = true) (hne : v ≠ .undef) :
    sweep (sentinelize v) = v := by
  induction v using jsvInduction with
  | hundef => exact absurd rfl hne
  | hnull => simp [sentinelize, sweep]
  | hbool b => simp [sentinelize, sweep]
  | hnum m => simp [sentinelize, sweep]
  | hstr s => simp [sentinelize, sweep]
  | hbig i => simp [sentinelize, sweep]
  | hdate t => simp [sentinelize, sweep]
  | hsent => simp [wf] at hw
  | huns => simp [wf] at hw
  | harr l ihl =>
    rw [wf_arr, List.all_eq_true] at hw
    rw [sentinelize_arr, sweep_arr, List.map_map]
    have hmap : ∀ e ∈ l,
        ((fun e => if isSentinel e then JSV.undef else sweep e) ∘ sentinelize) e =
          id e := by
      intro e he
      simp only [Function.comp_apply, id_eq]
      by_cases hu : e = .undef
      · subst hu
        simp [sentinelize, isSentinel]
      · have hs : isSentinel (sentinelize e) = false := by
          rw [Bool.eq_false_iff]
          intro hx
          rcases (isSentinel_sentinelize e).mp hx with h | h
          · exact hu h
          · have hwe := hw e he
            rw [h] at hwe
            simp [wf] at hwe
        rw [hs]
        simp only [Bool.false_eq_true, if_false]
        exact ihl e he (hw e he) hu
    rw [List.map_congr_left hmap, List.map_id]
  | hobj f ihf =>
    rw [wf_obj, Bool.and_eq_true, List.all_eq_true] at hw
    rw [sentinelize_obj, sweep_obj, List.map_map]
    have hmap : ∀ kv ∈ f,
        ((fun kv : JStr × JSV =>
            (kv.1, if isSentinel kv.2 then JSV.undef else sweep kv.2)) ∘
          fun kv : JStr × JSV => (kv.1, sentinelize kv.2)) kv = id kv := by
      intro kv hkv
      obtain ⟨k1, v2⟩ := kv
      simp only [Function.comp_apply, id_eq]
      by_cases hu : v2 = .undef
      · rw [hu]
        simp [sentinelize, isSentinel]
      · have hs : isSentinel (sentinelize v2) = false := by
          rw [Bool.eq_false_iff]
          intro hx
          rcases (isSentinel_sentinelize v2).mp hx with h | h
          · exact hu h
          · have hwe := hw.2 (k1, v2) hkv
            rw [show ((k1, v2) : JStr × JSV).2 = v2 from rfl, h] at hwe
            simp [wf] at hwe
        rw [hs]
        simp only [Bool.false_eq_true, if_false]
        rw [ihf (k1, v2) hkv (hw.2 (k1, v2) hkv) hu]
    rw [List.map_congr_left hmap, List.map_id]

/-- C1 counterexample: the plain string value `"data:number,NaN"` is in
the claim's universe, but `parse(stringify(v))` returns NaN, not the
string: authored strings that match the token shape with a recognised
tag do not round-trip. -/
theorem C1_cex :
    JSSerialization.stringify (.str "data:number,NaN".toList) .undef .noSpace =
      .ok (some "\"data:number,NaN\"".toList) ∧
    JSSerialization.parse "\"data:number,NaN\"".toList = .ok (.num .nan) ∧
    JSV.num .nan ≠ .str "data:number,NaN".toList := by
  refine ⟨?_, ?_, by simp⟩
  · simp [JSSerialization.stringify, replacerInvalid, repOf, indentOf, str, quote,
      isEscapable]
  · unfold JSSerialization.parse
    rw [show jsonParse "\"data:number,NaN\"".toList =
      some (.str "data:number,NaN".toList) from rfl]
    show Except.bind (decodeNode (.str "data:number,NaN".toList)) (fun v =>
      if isNullRoot v then Except.error JSError.typeError
      else Except.ok (sweep v)) = Except.ok (.num .nan)
    rw [show decodeNode (.str "data:number,NaN".toList) =
      reviveString "data:number,NaN".toList from by simp [decodeNode]]
    rw [show reviveString "data:number,NaN".toList = .ok (.num .nan) from rfl]
    simp [Except.bind, isNullRoot, sweep]

/-- C1 (amended): for every value drawn from the claim's universe —
absent values, strings, (integer-valued) finite numbers, NaN, the
infinities, booleans, null, big integers, valid timestamps, arrays and
keyed structures with unique keys — `parse(stringify(v))` with no
replacer, reviver or plugins is deeply equal to `v`, including that
absent-valued fields at any depth come back as present fields holding
the absent value, PROVIDED the value is not the top-level absent value
itself, is not the top-level null (then stringify gives `null`, whose
parse throws a TypeError at `Object.keys(null)` in the sweep — null is
fine at any nested position), and no string inside it matches the
tagged-token detection pattern `data:<type>,<value>`. -/
theorem C1_round_trip (v : JSV) (h1 : wf v = true) (h2 : tokenFree v = true)
    (h3 : v ≠ .undef) (h4 : v ≠ .jsNull) :
    ∃ txt, JSSerialization.stringify v .undef .noSpace = .ok (some txt) ∧
      JSSerialization.parse txt = .ok v := by
  refine ⟨jsonRender (encodeJson v), ?_, ?_⟩
  · unfold JSSerialization.stringify
    rw [if_neg (by simp [replacerInvalid])]
    rw [show repOf RepArg.undef = RepMode.noRep from rfl,
      show indentOf SpaceArg.noSpace = ([] : JStr) from rfl]
    rw [str_eq_render v h1]
  · unfold JSSerialization.parse
    rw [jsonParse_jsonRender]
    show Except.bind (decodeNode (encodeJson v)) (fun w =>
      if isNullRoot w then Except.error JSError.typeError
      else Except.ok (sweep w)) = Except.ok v
    rw [decodeNode_encodeJson v h1 h2]
    simp only [Except.bind, isNullRoot_sentinelize v h4, Bool.false_eq_true, if_false]
    rw [sweep_sentinelize v h1 h3]

theorem C1_round_trip_witness :
    wf (.obj [("a".toList, .undef), ("b".toList,
      .arr [.num .nan, .bigint (-7), .date (.finite 12345)])]) = true ∧
    tokenFree (.obj [("a".toList, .undef), ("b".toList,
      .arr [.num .nan, .bigint (-7), .date (.finite 12345)])]) = true ∧
    (JSV.obj [("a".toList, .undef), ("b".toList,
      .arr [.num .nan, .bigint (-7), .date (.finite 12345)])]) ≠ .undef ∧
    (JSV.obj [("a".toList, .undef), ("b".toList,
      .arr [.num .nan, .bigint (-7), .date (.finite 12345)])]) ≠ .jsNull ∧
    ∃ txt, JSSerialization.stringify (.obj [("a".toList, .undef), ("b".toList,
        .arr [.num .nan, .bigint (-7), .date (.finite 12345)])]) .undef .noSpace =
        .ok (some txt) ∧
      JSSerialization.parse txt = .ok (.obj [("a".toList, .undef), ("b".toList,
        .arr [.num .nan, .bigint (-7), .date (.finite 12345)])]) := by
  have hw : wf (.obj [("a".toList, .undef), ("b".toList,
      .arr [.num .nan, .bigint (-7), .date (.finite 12345)])]) = true := by
    simp [wf_obj, wf_arr, wf]
  have ht : tokenFree (.obj [("a".toList, .undef), ("b".toList,
      .arr [.num .nan, .bigint (-7), .date (.finite 12345)])]) = true := by
    simp [tokenFree_obj, tokenFree_arr, tokenFree]
  exact ⟨hw, ht, by simp, by simp, C1_round_trip _ hw ht (by simp) (by simp)⟩

theorem filterMap_congr_mem {α β : Type} (l : List α) (f g : α → Option β)
    (h : ∀ x ∈ l, f x = g x) : l.filterMap f = l.filterMap g := by
  induction l with
  | nil => rfl
  | cons a r ih =>
    rw [List.filterMap_cons, List.filterMap_cons, h a (List.mem_cons_self a r),
      ih fun x hx => h x (List.mem_cons_of_mem a hx)]

theorem escapeChar_eq_native (c : Char) (h : extraEscapable c = false) :
    (if isEscapable c then escapeChar c else [c]) = nativeEscapeChar c := by
  by_cases hq : c = '"'
  · subst hq
    decide
  · by_cases hb : c = '\\'
    · subst hb
      decide
    · by_cases hc0 : c.toNat < 32
      · have he : isEscapable c = true := by
          simp only [isEscapable, Bool.or_eq_true, Bool.and_eq_true, decide_eq_true_eq]
          omega
        rw [if_pos he]
        unfold escapeChar nativeEscapeChar
        rw [if_neg hq, if_neg hb, if_pos hc0]
      · have he : isEscapable c = false := by
          simpa [extraEscapable, hq, hb, hc0] using h
        rw [if_neg (by simp [he])]
        unfold nativeEscapeChar
        rw [if_neg hq, if_neg hb, if_neg hc0]

theorem quote_eq_nativeQuote (s : JStr) (h : plainStr s = true) :
    quote s = nativeQuote s := by
  unfold plainStr at h
  rw [List.all_eq_true] at h
  rw [quote_eq_flatMap]
  unfold nativeQuote
  have hfm : (s.flatMap fun a => if isEscapable a then escapeChar a else [a]) =
      s.flatMap nativeEscapeChar := by
    induction s with
    | nil => rfl
    | cons c cs ih =>
      rw [List.flatMap_cons, List.flatMap_cons]
      rw [escapeChar_eq_native c (by
        have := h c (List.mem_cons_self c cs)
        simpa using this)]
      rw [ih fun x hx => h x (List.mem_cons_of_mem c hx)]
  rw [hfm]

theorem str_eq_nativeStr (v : JSV) (h : plainVal v = true) :
    str .noRep [] [] v = nativeStr v := by
  induction v using jsvInduction with
  | hundef => simp [plainVal] at h
  | hnull => simp [str, nativeStr]
  | hbool b => simp [str, nativeStr]
  | hnum m =>
    cases m with
    | finite i => simp [str, nativeStr]
    | nan => simp [plainVal] at h
    | inf => simp [plainVal] at h
    | ninf => simp [plainVal] at h
  | hstr s =>
    simp only [str, nativeStr]
    rw [quote_eq_nativeQuote s (by simpa [plainVal] using h)]
  | hbig i => simp [plainVal] at h
  | hdate t => simp [plainVal] at h
  | hsent => simp [plainVal] at h
  | huns => simp [str, nativeStr]
  | harr l ihl =>
    rw [plainVal_arr, List.all_eq_true] at h
    rw [str_arr_eq, nativeStr_arr]
    simp only [List.nil_append]
    have hmap : (l.map fun e => (str .noRep [] [] e).getD ("null".toList)) =
        l.map fun e => (nativeStr e).getD ("null".toList) :=
      List.map_congr_left fun e he => by rw [ihl e he (h e he)]
    rw [hmap]
    cases l with
    | nil => simp [List.intercalate, List.intersperse]
    | cons e l' => simp [List.isEmpty]
  | hobj f ihf =>
    rw [plainVal_obj, List.all_eq_true] at h
    rw [str_obj_noRep_eq, nativeStr_obj]
    simp only [List.nil_append, List.isEmpty_nil, if_true]
    have hmap : (f.filterMap fun kv => (str .noRep [] [] kv.2).map
        fun vt => quote kv.1 ++ [':'] ++ vt) =
        f.filterMap fun kv => (nativeStr kv.2).map
          fun vt => nativeQuote kv.1 ++ ':' :: vt := by
      apply filterMap_congr_mem
      intro kv hkv
      have hp := h kv hkv
      rw [Bool.and_eq_true] at hp
      rw [ihf kv hkv hp.2, quote_eq_nativeQuote kv.1 hp.1]
      congr 1
      funext vt
      simp
    rw [hmap]
    cases hp : f.filterMap fun kv => (nativeStr kv.2).map
        fun vt => nativeQuote kv.1 ++ ':' :: vt with
    | nil => simp [List.intercalate, List.intersperse]
    | cons p ps => simp [List.isEmpty]

theorem isSentinel_jsvOfJson (j : Json) : isSentinel (jsvOfJson j) = false := by
  cases j <;> simp [jsvOfJson, isSentinel]

theorem sweep_jsvOfJson (j : Json) : sweep (jsvOfJson j) = jsvOfJson j := by
  induction j using jsonInduction with
  | hnull => simp [jsvOfJson, sweep]
  | hbool b => simp [jsvOfJson, sweep]
  | hnum i => simp [jsvOfJson, sweep]
  | hstr s => simp [jsvOfJson, sweep]
  | harr l ih =>
    rw [jsvOfJson_arr, sweep_arr, List.map_map]
    congr 1
    refine List.map_congr_left fun e he => ?_
    simp only [Function.comp_apply, isSentinel_jsvOfJson e, Bool.false_eq_true,
      if_false]
    exact ih e he
  | hobj f ih =>
    rw [jsvOfJson_obj, sweep_obj, List.map_map]
    congr 1
    refine List.map_congr_left fun kv hkv => ?_
    simp only [Function.comp_apply, isSentinel_jsvOfJson kv.2, Bool.false_eq_true,
      if_false]
    rw [ih kv hkv]

theorem isNullRoot_jsvOfJson (j : Json) (h : j ≠ .null) :
    isNullRoot (jsvOfJson j) = false := by
  cases j <;> simp [jsvOfJson, isNullRoot] at h ⊢

theorem decode_mapM_json (l : List Json)
    (h : ∀ e ∈ l, decodeNode e = .ok (jsvOfJson e)) :
    l.mapM decodeNode = .ok (l.map jsvOfJson) := by
  induction l with
  | nil => rfl
  | cons e l' ih =>
    rw [List.mapM_cons, h e (List.mem_cons_self e l'),
      ih fun x hx => h x (List.mem_cons_of_mem e hx), List.map_cons]
    rfl

theorem decode_mapM_json_fields (f : List (JStr × Json))
    (h : ∀ kv ∈ f, decodeNode kv.2 = .ok (jsvOfJson kv.2)) :
    f.mapM (fun kv => do { let v ← decodeNode kv.2; return (kv.1, v) }) =
      .ok (f.map fun kv => (kv.1, jsvOfJson kv.2)) := by
  induction f with
  | nil => rfl
  | cons kv f' ih =>
    rw [List.mapM_cons]
    simp only [h kv (List.mem_cons_self kv f'),
      ih fun x hx => h x (List.mem_cons_of_mem kv hx), List.map_cons]
    rfl

theorem decodeNode_tokenFreeJson (j : Json) (h : tokenFreeJson j = true) :
    decodeNode j = .ok (jsvOfJson j) := by
  induction j using jsonInduction with
  | hnull => simp [decodeNode, jsvOfJson]
  | hbool b => simp [decodeNode, jsvOfJson]
  | hnum i => simp [decodeNode, jsvOfJson]
  | hstr s =>
    simp only [decodeNode, jsvOfJson]
    exact reviveString_not_token s (by simpa [tokenFreeJson] using h)
  | harr l ih =>
    rw [tokenFreeJson_arr, List.all_eq_true] at h
    rw [decodeNode_arr, jsvOfJson_arr]
    rw [decode_mapM_json l fun e he => ih e he (h e he)]
    rfl
  | hobj f ih =>
    rw [tokenFreeJson_obj, List.all_eq_true] at h
    rw [decodeNode_obj, jsvOfJson_obj]
    rw [decode_mapM_json_fields f fun kv hkv => ih kv hkv (h kv hkv)]
    rfl

/-- C2 counterexample: the value `"\u007f"` (the DEL character, not an
extended type) is escaped by the library's `quote` (whose `rx_escapable`
covers `\u007f-\u009f` and more) but left verbatim by the native
stringify, so the two texts differ byte-for-byte. -/
theorem C2_cex :
    JSSerialization.stringify (.str [Char.ofNat 127]) .undef .noSpace =
      .ok (some ['"', '\\', 'u', '0', '0', '7', 'f', '"']) ∧
    nativeStr (.str [Char.ofNat 127]) = some ['"', Char.ofNat 127, '"'] ∧
    JSSerialization.stringify (.str [Char.ofNat 127]) .undef .noSpace ≠
      .ok (nativeStr (.str [Char.ofNat 127])) := by
  have he : escapeChar (Char.ofNat 127) = ['\\', 'u', '0', '0', '7', 'f'] := by
    simp [escapeChar, meta, hex4, lastN, natToHex, Nat.digitChar]
  have hi : isEscapable (Char.ofNat 127) = true := by decide
  have h1 : JSSerialization.stringify (.str [Char.ofNat 127]) .undef .noSpace =
      .ok (some ['"', '\\', 'u', '0', '0', '7', 'f', '"']) := by
    simp [JSSerialization.stringify, replacerInvalid, repOf, indentOf, str,
      quote, hi, he]
  have h2 : nativeStr (.str [Char.ofNat 127]) = some ['"', Char.ofNat 127, '"'] := by
    have : nativeEscapeChar (Char.ofNat 127) = [Char.ofNat 127] := by decide
    simp [nativeStr, nativeQuote, this]
  refine ⟨h1, h2, ?_⟩
  rw [h1, h2]
  simp

/-- C2: in the plain-JSON subset, corrected. The claim as stated fails
(`C2_cex`): the library escapes characters native stringify leaves
alone. The equivalence does hold in the compact, no-replacer,
no-reviver setting once the compared strings are also free of the
library's extra escapables and the text is not the bare `null`: (a)
for every value of the plain universe (`plainVal`: no extended types
anywhere and every string and key free of the extra escapable
characters), `stringify v` with no replacer and no space yields
exactly the native text; (b) for every text the host parser accepts
whose tree is free of token-shaped strings and is not the `null` root,
`parse` yields exactly the value native parse would build; (c) on the
text `null` itself the two diverge a second way: native parse returns
null, the library throws a TypeError at `Object.keys(null)`. -/
theorem C2_native_equivalence :
    (∀ v : JSV, plainVal v = true →
      JSSerialization.stringify v .undef .noSpace = .ok (nativeStr v)) ∧
    (∀ (t : JStr) (j : Json), jsonParse t = some j → tokenFreeJson j = true →
      j ≠ .null → JSSerialization.parse t = .ok (jsvOfJson j)) ∧
    JSSerialization.parse "null".toList = .error .typeError := by
  refine ⟨?_, ?_, ?_⟩
  · intro v h
    unfold JSSerialization.stringify
    rw [if_neg (by simp [replacerInvalid])]
    rw [show repOf RepArg.undef = RepMode.noRep from rfl,
      show indentOf SpaceArg.noSpace = ([] : JStr) from rfl]
    rw [str_eq_nativeStr v h]
  · intro t j hp ht hn
    unfold JSSerialization.parse
    rw [hp]
    show Except.bind (decodeNode j) (fun w =>
      if isNullRoot w then Except.error JSError.typeError
      else Except.ok (sweep w)) = _
    rw [decodeNode_tokenFreeJson j ht]
    simp only [Except.bind, isNullRoot_jsvOfJson j hn, Bool.false_eq_true, if_false]
    rw [sweep_jsvOfJson]
  · unfold JSSerialization.parse
    rw [show jsonParse "null".toList = some .null from rfl]
    simp [decodeNode, Except.bind, isNullRoot]

theorem C2_native_equivalence_witness :
    JSSerialization.stringify (.obj [("k".toList, .str "hi".toList)]) .undef .noSpace =
      .ok (nativeStr (.obj [("k".toList, .str "hi".toList)])) ∧
    JSSerialization.parse "1".toList = .ok (jsvOfJson (.num 1)) := by
  constructor
  · refine C2_native_equivalence.1 _ ?_
    rw [plainVal_obj]
    simp only [List.all_cons, List.all_nil, Bool.and_true]
    rw [show plainVal (.str "hi".toList) = plainStr "hi".toList from by
      simp [plainVal]]
    decide
  · exact C2_native_equivalence.2.1 "1".toList (.num 1) rfl
      (by simp [tokenFreeJson]) (by simp)
